import Mathlib

/-!
Shallow embedding of the dt31 virtual CPU and its two-pass assembler
(package `dt31`: `operands.py`, `instructions.py`, `cpu.py`, `assembler.py`),
together with theorems settling the specification claims.

Conventions of the embedding:
* Python ints are `Int`; Python floor division `//` is `Int.fdiv`, `%` is
  `Int.fmod` (both match Python's sign conventions), and division by zero is
  an explicit error.
* Exceptions are `Except` values; each distinct raise site is a constructor
  of an error type.
* The CPU object is an explicit `DT31` state record threaded through every
  operation.
-/

namespace DT31Model

/-- Operands as in `operands.py`: `Literal`, `RegisterReference`,
`MemoryReference` (with an arbitrary nested address operand), plus `Label`,
which the source keeps as a separate class but which can sit in the same
`dest` fields (`Destination = Label | Operand | int`); `Label.resolve`
always raises at runtime. -/
inductive Operand where
  | Literal (value : Int)
  | RegisterReference (register : String)
  | MemoryReference (address : Operand)
  | Label (name : String)
deriving DecidableEq, Repr

/-- Runtime errors raised by the CPU and operand layer: `ValueError` from
`get_register`/`set_register` (unknown register), `IndexError` from
`get_memory`/`set_memory`, `RuntimeError` from `push`/`pop`
(stack overflow/underflow), the `RuntimeError` of `Label.resolve`, the
`ValueError` of `DT31.__setitem__` on a non-reference, and
`ZeroDivisionError` / negative-shift `ValueError` from arithmetic. -/
inductive Err where
  | unknownRegister (name : String)
  | outOfBoundsMemory (index : Int)
  | stackOverflow
  | stackUnderflow
  | unresolvedLabel (name : String)
  | cantSetItem
  | zeroDivision
  | negativeShift
deriving DecidableEq, Repr

/-- Errors raised by `assemble` in `assembler.py`. The source raises a single
`AssemblyError` class with a message string; the two raise sites
(`"Label {name} used more than once."` and `"Undefined label: {name}"`) are
modelled as two constructors, each carrying the label name the message
contains. -/
inductive AsmError where
  | duplicateLabel (name : String)
  | undefinedLabel (name : String)
deriving DecidableEq, Repr

/-- Replace the value stored under a key in an association list, keeping its
position — the effect of `self.registers[register] = value` on a Python dict
whose keys are unchanged. -/
def updateAssoc : List (String × Int) → String → Int → List (String × Int)
  | [], _, _ => []
  | (k, v) :: rest, r, x =>
    if k = r then (k, x) :: rest else (k, v) :: updateAssoc rest r x

/-- CPU state of class `DT31` in `cpu.py`: registers dict (modelled as an
association list in insertion order), memory list, stack (a deque used as a
LIFO whose right end is the top), the configuration sizes and wrap flag, and
the loaded instruction list (abstract in `instrT` so the instruction type can
be defined after the state). -/
structure CpuState (instrT : Type) where
  registers : List (String × Int)
  memory : List Int
  memory_size : Nat
  stack : List Int
  stack_size : Nat
  wrap_memory : Bool
  instructions : List instrT
deriving DecidableEq, Repr

namespace CpuState

variable {instrT : Type}

/-- Model of `DT31.get_register`. -/
def get_register (cpu : CpuState instrT) (register : String) : Except Err Int :=
  match cpu.registers.lookup register with
  | some v => .ok v
  | none => .error (.unknownRegister register)

/-- Model of `DT31.set_register`. -/
def set_register (cpu : CpuState instrT) (register : String) (value : Int) :
    Except Err (CpuState instrT) :=
  match cpu.registers.lookup register with
  | some _ => .ok { cpu with registers := updateAssoc cpu.registers register value }
  | none => .error (.unknownRegister register)

/-- Model of `DT31.get_memory`: with `wrap_memory` the index is reduced
modulo `memory_size` (Python `%`, hence non-negative for the positive sizes
the constructor enforces); otherwise an out-of-bounds index is an error. -/
def get_memory (cpu : CpuState instrT) (index : Int) : Except Err Int :=
  if cpu.wrap_memory then
    .ok (cpu.memory.getD (index.fmod cpu.memory_size).toNat 0)
  else if 0 ≤ index ∧ index < cpu.memory.length then
    .ok (cpu.memory.getD index.toNat 0)
  else .error (.outOfBoundsMemory index)

/-- Model of `DT31.set_memory`. -/
def set_memory (cpu : CpuState instrT) (index value : Int) :
    Except Err (CpuState instrT) :=
  if cpu.wrap_memory then
    .ok { cpu with memory := cpu.memory.set (index.fmod cpu.memory_size).toNat value }
  else if 0 ≤ index ∧ index < cpu.memory.length then
    .ok { cpu with memory := cpu.memory.set index.toNat value }
  else .error (.outOfBoundsMemory index)

/-- Model of `DT31.push`: appends to the right end of the deque, raising
stack overflow when the stack already holds `stack_size` values. -/
def push (cpu : CpuState instrT) (value : Int) : Except Err (CpuState instrT) :=
  if cpu.stack.length = cpu.stack_size then .error .stackOverflow
  else .ok { cpu with stack := cpu.stack ++ [value] }

/-- Model of `DT31.pop`: removes the right end of the deque (the top),
raising stack underflow when empty. -/
def pop (cpu : CpuState instrT) : Except Err (Int × CpuState instrT) :=
  match cpu.stack.getLast? with
  | none => .error .stackUnderflow
  | some v => .ok (v, { cpu with stack := cpu.stack.dropLast })

end CpuState

/-- Model of `Operand.resolve` (with `Label.resolve` raising, as in the
source). `MemoryReference` first resolves its nested address, then reads
memory at it. -/
def Operand.resolve {instrT : Type} : Operand → CpuState instrT → Except Err Int
  | .Literal v, _ => .ok v
  | .RegisterReference r, cpu => cpu.get_register r
  | .MemoryReference a, cpu => do
    let addr ← a.resolve cpu
    cpu.get_memory addr
  | .Label n, _ => .error (.unresolvedLabel n)

/-- Model of `DT31.__setitem__`: writing through a memory reference resolves
its address operand, writing through a register reference sets the register;
anything else is a `ValueError`. -/
def CpuState.setItem {instrT : Type} (cpu : CpuState instrT) (out : Operand)
    (value : Int) : Except Err (CpuState instrT) :=
  match out with
  | .MemoryReference a => do
    let addr ← a.resolve cpu
    cpu.set_memory addr value
  | .RegisterReference r => cpu.set_register r value
  | _ => .error .cantSetItem

/-- Test for the `Reference = RegisterReference | MemoryReference` union used
by operation constructors to decide whether the output can default to the
first operand. -/
def Operand.isReference : Operand → Bool
  | .RegisterReference _ => true
  | .MemoryReference _ => true
  | _ => false

end DT31Model

namespace DT31Model

/-- Tags for the concrete `BinaryOperation` subclasses of `instructions.py`
(arithmetic, shifts, bitwise, comparisons, and the truthiness-based logical
operations). -/
inductive BinOpKind where
  | ADD | SUB | MUL | DIV | MOD | BSL | BSR | BAND | BOR | BXOR
  | LT | GT | LE | GE | EQ | NE
  | AND | OR | XOR
deriving DecidableEq, Repr

/-- Tags for the concrete `UnaryOperation` subclasses other than `CP`
(which overrides `_calc` with an extra store and is modelled separately). -/
inductive UnOpKind where
  | BNOT | NOT
deriving DecidableEq, Repr

/-- Python `a and b` on ints: `a` when `a` is falsy, else `b`. -/
def pyAnd (a b : Int) : Int := if a = 0 then a else b

/-- Python `a or b` on ints: `a` when `a` is truthy, else `b`. -/
def pyOr (a b : Int) : Int := if a ≠ 0 then a else b

/-- Value computed by each `BinaryOperation._calc` on already-resolved
operand values. `DIV`/`MOD` are Python floor division and modulo and raise
on zero; `BSL`/`BSR` raise on a negative shift count and otherwise multiply
or floor-divide by a power of two (Python's arbitrary-precision shifts);
comparisons wrap the Python bool in `int(...)`, giving 1/0. `AND`/`OR` are
`int(a and b)` / `int(a or b)` — `int()` applied to the int that Python's
truthiness connectives return, hence NOT clamped to 1/0. `XOR` is
`int((a and not b) or (b and not a))`, which always produces 1/0 because
each disjunct is either the int 0 or a bool. -/
def binOpValue (k : BinOpKind) (a b : Int) : Except Err Int :=
  match k with
  | .ADD => .ok (a + b)
  | .SUB => .ok (a - b)
  | .MUL => .ok (a * b)
  | .DIV => if b = 0 then .error .zeroDivision else .ok (a.fdiv b)
  | .MOD => if b = 0 then .error .zeroDivision else .ok (a.fmod b)
  | .BSL => if b < 0 then .error .negativeShift else .ok (a * 2 ^ b.toNat)
  | .BSR => if b < 0 then .error .negativeShift else .ok (a.fdiv (2 ^ b.toNat))
  | .BAND => .ok (Int.land a b)
  | .BOR => .ok (Int.lor a b)
  | .BXOR => .ok (Int.xor a b)
  | .LT => .ok (if a < b then 1 else 0)
  | .GT => .ok (if a > b then 1 else 0)
  | .LE => .ok (if a ≤ b then 1 else 0)
  | .GE => .ok (if a ≥ b then 1 else 0)
  | .EQ => .ok (if a = b then 1 else 0)
  | .NE => .ok (if a ≠ b then 1 else 0)
  | .AND => .ok (pyAnd a b)
  | .OR => .ok (pyOr a b)
  | .XOR => .ok (if (a ≠ 0) ≠ (b ≠ 0) then 1 else 0)

/-- Value computed by `BNOT._calc` (Python `~a = -a - 1`) and `NOT._calc`
(`int(not a)`, always 1/0). -/
def unOpValue (k : UnOpKind) (a : Int) : Int :=
  match k with
  | .BNOT => -a - 1
  | .NOT => if a = 0 then 1 else 0

/-- Addressing axis of the jump/call hierarchy: `ExactJumpMixin` resolves
`dest` directly as the new ip, `RelativeJumpMixin` adds the resolved `dest`
to the current ip. -/
inductive Addressing where
  | Exact
  | Relative
deriving DecidableEq, Repr

/-- Condition axis of the jump hierarchy, carrying the condition's own
operands: `UnconditionalJumpMixin`, `IfEqualJumpMixin`, `IfUnequalJumpMixin`,
`IfGTJumpMixin`, `IfGEJumpMixin`, `IfJumpMixin` (truthiness of one operand). -/
inductive JumpCond where
  | Unconditional
  | IfEqual (a b : Operand)
  | IfUnequal (a b : Operand)
  | IfGT (a b : Operand)
  | IfGE (a b : Operand)
  | IfTruthy (a : Operand)
deriving DecidableEq, Repr

/-- Instruction set of `instructions.py` as a tagged type. The class
hierarchy becomes data: `BinOp`/`UnOp` carry their already-defaulted output
reference (the constructors' defaulting logic is modelled separately),
`Jump` carries the addressing/condition axes that the source composes via
mixins, `CALL`/`RCALL` collapse to `CALL` with an addressing tag. `CP`
is kept separate from `UnOp` because its `_calc` performs its own store. -/
inductive Instr where
  | NOOP
  | BinOp (kind : BinOpKind) (a b : Operand) (out : Operand)
  | UnOp (kind : UnOpKind) (a : Operand) (out : Operand)
  | CP (a : Operand) (out : Operand)
  | Jump (addressing : Addressing) (cond : JumpCond) (dest : Operand)
  | CALL (addressing : Addressing) (dest : Operand)
  | RET
  | PUSH (a : Operand)
  | POP (out : Option Operand)
  | SEMP (out : Operand)
deriving DecidableEq, Repr

/-- Concrete CPU state: a `CpuState` whose loaded instructions are `Instr`. -/
abbrev DT31 := CpuState Instr

/-- Model of the `_jump_condition` methods of the condition mixins. -/
def jumpCondition (cpu : DT31) : JumpCond → Except Err Bool
  | .Unconditional => .ok true
  | .IfEqual a b => do
    let x ← a.resolve cpu
    let y ← b.resolve cpu
    .ok (x = y)
  | .IfUnequal a b => do
    let x ← a.resolve cpu
    let y ← b.resolve cpu
    .ok (x ≠ y)
  | .IfGT a b => do
    let x ← a.resolve cpu
    let y ← b.resolve cpu
    .ok (x > y)
  | .IfGE a b => do
    let x ← a.resolve cpu
    let y ← b.resolve cpu
    .ok (x ≥ y)
  | .IfTruthy a => do
    let x ← a.resolve cpu
    .ok (x ≠ 0)

/-- Model of the `_jump_destination` methods: `ExactJumpMixin` returns the
resolved `dest`; `RelativeJumpMixin` reads the ip register first (Python
evaluates the left summand first) and adds the resolved `dest`. -/
def jumpDestination (cpu : DT31) (addressing : Addressing) (dest : Operand) :
    Except Err Int :=
  match addressing with
  | .Exact => dest.resolve cpu
  | .Relative => do
    let p ← cpu.get_register "ip"
    let d ← dest.resolve cpu
    .ok (p + d)

/-- Model of the default `Instruction._advance`: `ip += 1`. -/
def incIp (cpu : DT31) : Except Err DT31 := do
  let p ← cpu.get_register "ip"
  cpu.set_register "ip" (p + 1)

/-- Model of instruction execution, `Instruction.__call__`: the `_calc`
phase runs first, then `_advance`, in the exact order of the source;
`UnaryOperation.__call__`/`BinaryOperation.__call__` additionally store the
computed value into `out` after the advance. `CP._calc` stores into `out`
itself (before the advance), and the inherited `UnaryOperation.__call__`
stores the value a second time after the advance. The returned `Int` is the
value `__call__` returns. -/
def exec : Instr → DT31 → Except Err (Int × DT31)
  | .NOOP, cpu => do
    let c ← incIp cpu
    .ok (0, c)
  | .BinOp k a b out, cpu => do
    let x ← a.resolve cpu
    let y ← b.resolve cpu
    let v ← binOpValue k x y
    let c1 ← incIp cpu
    let c2 ← c1.setItem out v
    .ok (v, c2)
  | .UnOp k a out, cpu => do
    let x ← a.resolve cpu
    let v := unOpValue k x
    let c1 ← incIp cpu
    let c2 ← c1.setItem out v
    .ok (v, c2)
  | .CP a out, cpu => do
    let v ← a.resolve cpu
    let c1 ← cpu.setItem out v
    let c2 ← incIp c1
    let c3 ← c2.setItem out v
    .ok (v, c3)
  | .Jump addressing cond dest, cpu => do
    let c ← jumpCondition cpu cond
    if c then
      let d ← jumpDestination cpu addressing dest
      let c1 ← cpu.set_register "ip" d
      .ok (0, c1)
    else
      let c1 ← incIp cpu
      .ok (0, c1)
  | .CALL addressing dest, cpu => do
    let p ← cpu.get_register "ip"
    let c1 ← cpu.push (p + 1)
    let d ← jumpDestination c1 addressing dest
    let c2 ← c1.set_register "ip" d
    .ok (0, c2)
  | .RET, cpu => do
    let rc ← cpu.pop
    let c1 ← rc.2.set_register "ip" rc.1
    .ok (0, c1)
  | .PUSH a, cpu => do
    let v ← a.resolve cpu
    let c1 ← cpu.push v
    let c2 ← incIp c1
    .ok (0, c2)
  | .POP out, cpu => do
    let vc ← cpu.pop
    let c2 ← match out with
      | some o => vc.2.setItem o vc.1
      | none => .ok vc.2
    let c3 ← incIp c2
    .ok (0, c3)
  | .SEMP out, cpu => do
    let v : Int := if cpu.stack.isEmpty then 1 else 0
    let c1 ← cpu.setItem out v
    let c2 ← incIp c1
    .ok (v, c2)

end DT31Model

namespace DT31Model

/-- Outcome of one `DT31.step` call: the `EndOfProgram` signal (normal
termination, a distinct constructor rather than an error), a propagated
runtime error, or a completed step carrying the Python return value of
`step` itself together with the mutated CPU. The source's `step` computes
`output = instruction(self)` but has no `return` statement, so the carried
return value is always `none`. -/
inductive StepResult where
  | endOfProgram
  | failure (e : Err)
  | next (ret : Option Int) (cpu : DT31)
deriving DecidableEq, Repr

/-- Model of `DT31.step`: `EndOfProgram` when `ip ≥ len(instructions)` or
`ip < 0` (checked in that order in the source); otherwise the instruction at
index ip executes and its computed value is bound to a local and discarded.
The `.getD` default is unreachable: both bounds checks have passed. -/
def DT31.step (cpu : DT31) : StepResult :=
  match cpu.get_register "ip" with
  | .error e => .failure e
  | .ok p =>
    if (cpu.instructions.length : Int) ≤ p then .endOfProgram
    else if p < 0 then .endOfProgram
    else
      match exec (cpu.instructions.getD p.toNat .NOOP) cpu with
      | .error e => .failure e
      | .ok (_, c) => .next none c

/-- Execution trajectory states for iterating `step`: still running, ended
normally via `EndOfProgram`, or halted by a propagated runtime error. The
CPU is retained in every case. -/
inductive ExecState where
  | running (cpu : DT31)
  | done (cpu : DT31)
  | failed (e : Err) (cpu : DT31)
deriving DecidableEq, Repr

/-- One transition of the trajectory: apply `step` to a running CPU;
terminal states are fixed. -/
def execStep : ExecState → ExecState
  | .running c =>
    match c.step with
    | .endOfProgram => .done c
    | .failure e => .failed e c
    | .next _ c2 => .running c2
  | s => s

/-- Trajectory after n further steps from a CPU. -/
def execN (cpu : DT31) : Nat → ExecState
  | 0 => .running cpu
  | n + 1 => execStep (execN cpu n)

/-- Model of `UnaryOperation.__init__` output defaulting (shared by `CP`,
`BNOT`, `NOT`): the source first coerces `a` with `as_op` (a `Label` is not
an `Operand` subclass and not an int, so `as_op` raises `ValueError`), then
checks that an explicit `out` is a `Reference`, and otherwise defaults `out`
to `a` when `a` is itself a reference, raising `ValueError` when it is not.
Errors carry the source's message text. -/
def mkUnaryOut (name : String) (a : Operand) (out : Option Operand) :
    Except String Operand :=
  if let .Label _ := a then
    .error "cant coerce value into operand"
  else
    match out with
    | some o =>
      if o.isReference then .ok o
      else .error "argument out must be a Reference or None"
    | none =>
      if a.isReference then .ok a
      else .error (name ++ " must be called with a reference as operand out or a reference as operand a")

/-- Model of the `CP` constructor: `CP.__init__` delegates to
`UnaryOperation.__init__("CP", a, out)`. -/
def mkCP (a : Operand) (out : Option Operand) : Except String Instr := do
  let o ← mkUnaryOut "CP" a out
  .ok (.CP a o)

end DT31Model

namespace DT31Model

/-- Entries of a pre-assembly program, as accepted by `assemble`:
instructions, label definitions, and comments (which pass 1 skips). -/
inductive Item where
  | instr (i : Instr)
  | label (name : String)
  | comment (text : String)
deriving DecidableEq, Repr

/-- Value of the `dest` attribute for the instructions that have one
(`hasattr(inst, "dest")` holds exactly for the `Jump` hierarchy, calls
included). -/
def destOf : Instr → Option Operand
  | .Jump _ _ d => some d
  | .CALL _ d => some d
  | _ => none

/-- Replacement of the `dest` attribute (`inst.dest = Literal(...)` in
pass 2); identity on instructions without a `dest`. -/
def setDest : Instr → Operand → Instr
  | .Jump a c _, d => .Jump a c d
  | .CALL a _, d => .CALL a d
  | i, _ => i

/-- Test for `isinstance(inst, RelativeJumpMixin)`: the relative-addressing
jumps RJMP/RJEQ/RJNE/RJGT/RJGE/RJIF and RCALL. -/
def isRelative : Instr → Bool
  | .Jump .Relative _ _ => true
  | .CALL .Relative _ => true
  | _ => false

/-- Names of the labels defined in a program, in order of appearance. -/
def definedLabels : List Item → List String
  | [] => []
  | .label n :: rest => n :: definedLabels rest
  | .comment _ :: rest => definedLabels rest
  | .instr _ :: rest => definedLabels rest

/-- Instructions of a program in order, with labels and comments dropped —
the contents of pass 1's output list. -/
def instrsOf : List Item → List Instr
  | [] => []
  | .instr i :: rest => i :: instrsOf rest
  | .label _ :: rest => instrsOf rest
  | .comment _ :: rest => instrsOf rest

/-- Position that pass 1 records for a label: the number of instruction
entries strictly before its first definition (labels and comments occupy no
slot); `none` when the label is never defined. -/
def labelPos : List Item → String → Option Nat
  | [], _ => none
  | .label m :: rest, n => if m = n then some 0 else labelPos rest n
  | .comment _ :: rest, n => labelPos rest n
  | .instr _ :: rest, n => (labelPos rest n).map (· + 1)

/-- Symbol table built by pass 1 when it does not fail, with positions
offset by a base counter value. -/
def tblOf : List Item → Nat → List (String × Nat)
  | [], _ => []
  | .label n :: rest, k => (n, k) :: tblOf rest k
  | .comment _ :: rest, k => tblOf rest k
  | .instr _ :: rest, k => tblOf rest (k + 1)

/-- Model of pass 1 of `assemble`: walk the program, recording each label's
name and current instruction counter, failing on a name already recorded;
instructions are appended to the output (the deep copy produces an equal
value), comments are skipped. The accumulated output list doubles as the
counter (`ip = acc.length`). -/
def pass1 : List Item → List Instr → List (String × Nat) →
    Except AsmError (List Instr × List (String × Nat))
  | [], acc, tbl => .ok (acc, tbl)
  | .label n :: rest, acc, tbl =>
    if (tbl.lookup n).isSome then .error (.duplicateLabel n)
    else pass1 rest acc (tbl ++ [(n, acc.length)])
  | .comment _ :: rest, acc, tbl => pass1 rest acc tbl
  | .instr i :: rest, acc, tbl => pass1 rest (acc ++ [i]) tbl

/-- Model of the pass-2 body for one instruction at output position ip:
when `dest` holds a `Label`, look it up, failing `Undefined label` when
absent, and substitute the literal target (relative instructions get
`target - ip`); other instructions are untouched. -/
def resolveDest (tbl : List (String × Nat)) (ip : Nat) (inst : Instr) :
    Except AsmError Instr :=
  match destOf inst with
  | some (.Label n) =>
    match tbl.lookup n with
    | some target =>
      if isRelative inst then
        .ok (setDest inst (.Literal ((target : Int) - (ip : Int))))
      else
        .ok (setDest inst (.Literal (target : Int)))
    | none => .error (.undefinedLabel n)
  | _ => .ok inst

/-- Model of pass 2 of `assemble`: resolve each output instruction in order
(the first unresolved reference in iteration order raises). -/
def pass2 (tbl : List (String × Nat)) : List Instr → Nat →
    Except AsmError (List Instr)
  | [], _ => .ok []
  | i :: rest, ip => do
    let i2 ← resolveDest tbl ip i
    let rest2 ← pass2 tbl rest (ip + 1)
    .ok (i2 :: rest2)

/-- Model of `assemble`: pass 1 then pass 2. -/
def assemble (program : List Item) : Except AsmError (List Instr) := do
  let pt ← pass1 program [] []
  pass2 pt.2 pt.1 0

end DT31Model

namespace DT31Model

/-- Modelled from the spec: the persistence structure consumed and produced
by `DT31.dump` / `DT31.load_from_dump`, which are absent from the source
tree (only `tests/test_cpu_serialization.py` exercises them). Per spec §6 it
holds `{registers, memory (full-length), stack (bottom-to-top), memory_size,
stack_size, wrap_memory, program (optional rendering of the loaded
program)}`; every field is optional here so that restoring from a structure
with a missing required field can be expressed. The optional program entry
is modelled as the instruction list itself rather than its textual
rendering. -/
structure DumpState where
  registers : Option (List (String × Int))
  memory : Option (List Int)
  stack : Option (List Int)
  memory_size : Option Nat
  stack_size : Option Nat
  wrap_memory : Option Bool
  program : Option (List Instr)
deriving DecidableEq, Repr

/-- Modelled from the spec: `DT31.dump` produces a full snapshot —
configuration, all register values, the entire memory array, full stack
contents, and the loaded program. -/
def DT31.dump (cpu : DT31) : DumpState where
  registers := some cpu.registers
  memory := some cpu.memory
  stack := some cpu.stack
  memory_size := some cpu.memory_size
  stack_size := some cpu.stack_size
  wrap_memory := some cpu.wrap_memory
  program := some cpu.instructions

/-- Modelled from the spec: `DT31.load_from_dump` rebuilds a fresh CPU from
a snapshot, failing with an error naming the first missing required field;
the program entry is optional (an absent program restores a CPU with no
instructions loaded). -/
def DT31.load_from_dump (s : DumpState) : Except String DT31 :=
  match s.registers with
  | none => .error "missing required field registers"
  | some registers =>
  match s.memory with
  | none => .error "missing required field memory"
  | some memory =>
  match s.stack with
  | none => .error "missing required field stack"
  | some stack =>
  match s.memory_size with
  | none => .error "missing required field memory_size"
  | some memory_size =>
  match s.stack_size with
  | none => .error "missing required field stack_size"
  | some stack_size =>
  match s.wrap_memory with
  | none => .error "missing required field wrap_memory"
  | some wrap_memory =>
    .ok { registers, memory, stack, memory_size, stack_size, wrap_memory,
          instructions := s.program.getD [] }

end DT31Model

namespace DT31Model

/-- Program entries for the object-graph model of `assemble`: the Python
input list holds references to instruction objects (addresses into a heap),
label objects, and comments. This second rendering of the assembler makes
object identity explicit so that the source's in-place `inst.dest = ...`
mutation of pass 2 and the deep copies of pass 1 can be reasoned about;
values alone cannot express which object was written. -/
inductive ProgItem where
  | instrRef (addr : Nat)
  | label (name : String)
  | comment (text : String)
deriving DecidableEq, Repr

/-- Heap of instruction objects: the address of an object is its index and
allocation appends at the end. -/
abbrev Heap := List Instr

/-- Dereference a heap address (addresses handed to the assembler are
always in range; the default is unreachable under that invariant). -/
def heapGet (h : Heap) (a : Nat) : Instr := h.getD a .NOOP

/-- Object-graph model of pass 1: a label records its name and the current
counter and occupies no slot, failing on a duplicate; `deepcopy(inst)`
allocates a fresh object with the same contents and appends its address to
the output list. The heap is threaded through, and is returned also on
failure (a raise leaves already-allocated objects in place). -/
def hpass1 : Heap → List ProgItem → List Nat → List (String × Nat) →
    Heap × Except AsmError (List Nat × List (String × Nat))
  | h, [], acc, tbl => (h, .ok (acc, tbl))
  | h, .label n :: rest, acc, tbl =>
    if (tbl.lookup n).isSome then (h, .error (.duplicateLabel n))
    else hpass1 h rest acc (tbl ++ [(n, acc.length)])
  | h, .comment _ :: rest, acc, tbl => hpass1 h rest acc tbl
  | h, .instrRef a :: rest, acc, tbl =>
    hpass1 (h ++ [heapGet h a]) rest (acc ++ [h.length]) tbl

/-- Object-graph model of pass 2: for each output object in order, when its
`dest` holds a label, the object is mutated in place (`inst.dest =
Literal(...)`), failing on an undefined label; the heap is returned also on
failure. -/
def hpass2 : Heap → List Nat → Nat → List (String × Nat) →
    Heap × Except AsmError Unit
  | h, [], _, _ => (h, .ok ())
  | h, a :: rest, ip, tbl =>
    match destOf (heapGet h a) with
    | some (.Label n) =>
      match tbl.lookup n with
      | some target =>
        let d : Operand :=
          if isRelative (heapGet h a) then .Literal ((target : Int) - (ip : Int))
          else .Literal (target : Int)
        hpass2 (h.set a (setDest (heapGet h a) d)) rest (ip + 1) tbl
      | none => (h, .error (.undefinedLabel n))
    | _ => hpass2 h rest (ip + 1) tbl

/-- Object-graph model of `assemble`: pass 1 then pass 2, returning the
final heap together with the output list of object addresses (or the
assembly error). -/
def hassemble (h : Heap) (program : List ProgItem) :
    Heap × Except AsmError (List Nat) :=
  match hpass1 h program [] [] with
  | (h1, .error e) => (h1, .error e)
  | (h1, .ok (addrs, tbl)) =>
    match hpass2 h1 addrs 0 tbl with
    | (h2, .error e) => (h2, .error e)
    | (h2, .ok _) => (h2, .ok addrs)

/-- Well-formed input for the object-graph assembler: every referenced
instruction object exists on the heap. -/
def heapWf (h : Heap) (program : List ProgItem) : Prop :=
  ∀ item ∈ program, ∀ a : Nat, item = .instrRef a → a < h.length

/-- Label-free program in the object-graph model: no label entries, and no
referenced instruction holds a label in its `dest` field. -/
def labelFree (h : Heap) (program : List ProgItem) : Prop :=
  (∀ item ∈ program, ∀ n : String, item ≠ .label n) ∧
  (∀ item ∈ program, ∀ a : Nat, item = .instrRef a →
    ∀ n : String, destOf (heapGet h a) ≠ some (.Label n))

/-- Contents of the referenced instruction objects, in program order. -/
def refContents (h : Heap) : List ProgItem → List Instr
  | [] => []
  | .instrRef a :: rest => heapGet h a :: refContents h rest
  | _ :: rest => refContents h rest

/-- Count of instruction entries in a program. -/
def refCount : List ProgItem → Nat
  | [] => 0
  | .instrRef _ :: rest => refCount rest + 1
  | _ :: rest => refCount rest

end DT31Model

namespace DT31Model

lemma lookup_updateAssoc_self (l : List (String × Int)) (r : String) (x : Int)
    (h : (l.lookup r).isSome) : (updateAssoc l r x).lookup r = some x := by
  induction l with
  | nil => simp [List.lookup] at h
  | cons kv rest ih =>
    obtain ⟨k, v⟩ := kv
    by_cases hk : k = r
    · subst hk
      simp [updateAssoc, List.lookup]
    · simp only [updateAssoc, if_neg hk]
      have hne : (r == k) = false := by simp [hk, Ne.symm hk]
      simp only [List.lookup, hne] at h ⊢
      exact ih h

lemma lookup_updateAssoc_ne (l : List (String × Int)) (r r2 : String) (x : Int)
    (h : r2 ≠ r) : (updateAssoc l r x).lookup r2 = l.lookup r2 := by
  induction l with
  | nil => simp [updateAssoc]
  | cons kv rest ih =>
    obtain ⟨k, v⟩ := kv
    by_cases hk : k = r
    · subst hk
      have hne : (r2 == k) = false := by simp [h]
      simp [updateAssoc, List.lookup, hne]
    · simp only [updateAssoc, if_neg hk]
      simp only [List.lookup]
      cases hbe : (r2 == k) with
      | true => rfl
      | false => exact ih

lemma lookup_updateAssoc_isSome (l : List (String × Int)) (r r2 : String) (x : Int)
    (h : (l.lookup r).isSome) :
    ((updateAssoc l r x).lookup r2).isSome = (l.lookup r2).isSome := by
  by_cases hr : r2 = r
  · subst hr
    rw [lookup_updateAssoc_self l r2 x h]
    simp [h]
  · rw [lookup_updateAssoc_ne l r r2 x hr]

end DT31Model

deriving instance DecidableEq for Except

namespace DT31Model

/-- Concrete example CPU used by witnesses and counterexamples: default-like
configuration scaled down, one loaded instruction `CP(5, R.a)`. -/
def exCpu : DT31 :=
  { registers := [("a", 0), ("ip", 0)], memory := [0], memory_size := 1,
    stack := [], stack_size := 1, wrap_memory := false,
    instructions := [.CP (.Literal 5) (.RegisterReference "a")] }

/-- State of `exCpu` after executing its one instruction. -/
def exCpu2 : DT31 :=
  { exCpu with registers := [("a", 5), ("ip", 1)] }

/-- C5, amended: for every loaded CPU, `step()` signals `EndOfProgram` — a
normal termination signal, a constructor distinct from every failure —
exactly when the ip register is negative or ≥ the number of loaded
instructions (the source checks the upper bound first); otherwise `step()`
invokes the instruction at index ip, propagating its errors, and discards
the instruction's computed value: the Python function has no return
statement, so its return value is `None`, not the computed value. -/
theorem C5_step_bounds (cpu : DT31) (p : Int)
    (hip : cpu.registers.lookup "ip" = some p) :
    ((p < 0 ∨ (cpu.instructions.length : Int) ≤ p) → cpu.step = .endOfProgram) ∧
    (0 ≤ p → p < (cpu.instructions.length : Int) →
      cpu.step =
        match exec (cpu.instructions.getD p.toNat .NOOP) cpu with
        | .error e => .failure e
        | .ok vc => .next none vc.2) ∧
    (∀ e : Err, (StepResult.endOfProgram : StepResult) ≠ .failure e) := by
  unfold DT31.step CpuState.get_register
  rw [hip]
  refine ⟨?_, ?_, ?_⟩
  · intro hout
    by_cases hge : (cpu.instructions.length : Int) ≤ p
    · simp [hge]
    · have hneg : p < 0 := by omega
      simp [hge, hneg]
  · intro h0 hlt
    have h1 : ¬ ((cpu.instructions.length : Int) ≤ p) := by omega
    have h2 : ¬ (p < 0) := by omega
    simp only [if_neg h1, if_neg h2]
    cases hx : exec (cpu.instructions.getD p.toNat .NOOP) cpu with
    | error e => rfl
    | ok vc => rfl
  · intro e h
    exact StepResult.noConfusion h

/-- C5, counterexample to the claim as stated: on `exCpu` the instruction at
ip computes the value 5, yet `step` carries no return value (`none`), so it
does not return the instruction's computed value. -/
theorem C5_counterexample :
    DT31.step exCpu = .next none exCpu2 ∧
    exec (.CP (.Literal 5) (.RegisterReference "a")) exCpu = .ok (5, exCpu2) ∧
    DT31.step exCpu ≠ .next (some 5) exCpu2 := by
  decide

/-- Witness for `C5_step_bounds` at `exCpu` (ip = 0, one instruction). -/
theorem C5_witness : DT31.step exCpu = .next none exCpu2 := by
  have h := (C5_step_bounds exCpu 0 (by decide)).2.1 (by decide) (by decide)
  rw [h]
  decide

end DT31Model

namespace DT31Model

/-- Concrete CPU for jump/call witnesses: register a is 1 (truthy), ip 0. -/
def exJcpu : DT31 :=
  { registers := [("a", 1), ("ip", 0)], memory := [0], memory_size := 1,
    stack := [], stack_size := 2, wrap_memory := false, instructions := [] }

/-- C6: for every jump instruction and CPU state, the condition is
evaluated first (its error propagates without the destination being
resolved); when it holds, ip is set to the computed destination — the
resolved destination itself for absolute (`Exact`) addressing, current ip
plus the resolved signed delta for relative addressing — and when it fails,
ip advances by exactly 1. -/
theorem C6_jump (cpu : DT31) (ak : Addressing) (cond : JumpCond)
    (dest : Operand) (p : Int)
    (hip : cpu.registers.lookup "ip" = some p) :
    (∀ e : Err, jumpCondition cpu cond = .error e →
      exec (.Jump ak cond dest) cpu = .error e) ∧
    (∀ t, dest.resolve cpu = .ok t → jumpDestination cpu .Exact dest = .ok t) ∧
    (∀ d, dest.resolve cpu = .ok d →
      jumpDestination cpu .Relative dest = .ok (p + d)) ∧
    (jumpCondition cpu cond = .ok true →
      ∀ d, jumpDestination cpu ak dest = .ok d →
        exec (.Jump ak cond dest) cpu =
          .ok (0, { cpu with registers := updateAssoc cpu.registers "ip" d })) ∧
    (jumpCondition cpu cond = .ok false →
      exec (.Jump ak cond dest) cpu =
        .ok (0, { cpu with registers := updateAssoc cpu.registers "ip" (p + 1) })) := by
  refine ⟨?_, ?_, ?_, ?_, ?_⟩
  · intro e he
    simp only [exec, he]
    rfl
  · intro t ht
    simp only [jumpDestination, ht]
  · intro d hd
    simp only [jumpDestination, CpuState.get_register, hip, hd]
    rfl
  · intro hc d hd
    simp only [exec, hc, hd, CpuState.set_register, hip]
    rfl
  · intro hc
    simp only [exec, hc, incIp, CpuState.get_register, CpuState.set_register, hip]
    rfl

/-- Witness for `C6_jump`: a truthy conditional absolute jump on `exJcpu`
lands on ip = 3. -/
theorem C6_witness :
    exec (.Jump .Exact (.IfTruthy (.RegisterReference "a")) (.Literal 3)) exJcpu =
      .ok (0, { exJcpu with registers := [("a", 1), ("ip", 3)] }) := by
  have h := (C6_jump exJcpu .Exact (.IfTruthy (.RegisterReference "a"))
    (.Literal 3) 0 (by decide)).2.2.2.1 (by decide) 3 (by decide)
  rw [h]
  decide

end DT31Model

namespace DT31Model

lemma exbind_ok {ε α β : Type} (a : α) (f : α → Except ε β) :
    (Except.ok a : Except ε α) >>= f = f a := rfl

lemma exbind_err {ε α β : Type} (e : ε) (f : α → Except ε β) :
    (Except.error e : Except ε α) >>= f = .error e := rfl

lemma ret_spec (c : DT31) (s : List Int) (r : Int) (hs : c.stack = s ++ [r])
    (hsome : (c.registers.lookup "ip").isSome) :
    exec .RET c =
      .ok (0, { c with stack := s, registers := updateAssoc c.registers "ip" r }) := by
  obtain ⟨v, hv⟩ := Option.isSome_iff_exists.mp hsome
  simp only [exec, CpuState.pop, hs, List.getLast?_concat, List.dropLast_concat,
    exbind_ok]
  simp only [CpuState.set_register, hv, exbind_ok]

/-- C7: CALL pushes `current_ip + 1` before jumping unconditionally by its
addressing kind; RET pops one value and sets ip to it, propagating stack
underflow when the stack is empty; composing a CALL executed at position p
with an immediate RET resumes with ip = p + 1 and the stack restored to its
pre-CALL contents. -/
theorem C7_call_ret (cpu : DT31) (ak : Addressing) (dest : Operand) (p t : Int)
    (hip : cpu.registers.lookup "ip" = some p)
    (hroom : cpu.stack.length ≠ cpu.stack_size)
    (hd : jumpDestination { cpu with stack := cpu.stack ++ [p + 1] } ak dest = .ok t) :
    (∃ c1, exec (.CALL ak dest) cpu = .ok (0, c1) ∧
      c1.stack = cpu.stack ++ [p + 1] ∧
      c1.registers = updateAssoc cpu.registers "ip" t ∧
      ∃ c2, exec .RET c1 = .ok (0, c2) ∧
        c2.stack = cpu.stack ∧ c2.registers.lookup "ip" = some (p + 1)) ∧
    (∀ c : DT31, ∀ s : List Int, ∀ r : Int, c.stack = s ++ [r] →
      (c.registers.lookup "ip").isSome →
      ∃ c2, exec .RET c = .ok (0, c2) ∧ c2.stack = s ∧
        c2.registers.lookup "ip" = some r) ∧
    (∀ c : DT31, c.stack = [] → exec .RET c = .error .stackUnderflow) := by
  have hretgen : ∀ c : DT31, ∀ s : List Int, ∀ r : Int, c.stack = s ++ [r] →
      (c.registers.lookup "ip").isSome →
      ∃ c2, exec .RET c = .ok (0, c2) ∧ c2.stack = s ∧
        c2.registers.lookup "ip" = some r := by
    intro c s r hs hsome
    refine ⟨_, ret_spec c s r hs hsome, rfl, ?_⟩
    exact lookup_updateAssoc_self c.registers "ip" r hsome
  refine ⟨?_, hretgen, ?_⟩
  · have hcall : exec (.CALL ak dest) cpu =
        .ok (0, { cpu with
          stack := cpu.stack ++ [p + 1],
          registers := updateAssoc cpu.registers "ip" t }) := by
      simp only [exec, CpuState.get_register, hip, CpuState.push, if_neg hroom,
        exbind_ok]
      simp only [hd, exbind_ok]
      simp only [CpuState.set_register, hip, exbind_ok]
    refine ⟨_, hcall, rfl, rfl, ?_⟩
    have hsome1 : (List.lookup "ip" (updateAssoc cpu.registers "ip" t)).isSome := by
      rw [lookup_updateAssoc_isSome cpu.registers "ip" "ip" t (by simp [hip])]
      simp [hip]
    exact hretgen _ cpu.stack (p + 1) rfl hsome1
  · intro c hs
    simp only [exec, CpuState.pop, hs]
    rfl

/-- Witness for `C7_call_ret`: `CALL(2)` at ip = 0 on `exJcpu` then `RET`
resumes at ip = 1 with the stack empty again. -/
theorem C7_witness :
    ∃ c1, exec (.CALL .Exact (.Literal 2)) exJcpu = .ok (0, c1) ∧
      c1.stack = exJcpu.stack ++ [0 + 1] ∧
      c1.registers = updateAssoc exJcpu.registers "ip" 2 ∧
      ∃ c2, exec .RET c1 = .ok (0, c2) ∧
        c2.stack = exJcpu.stack ∧ c2.registers.lookup "ip" = some (0 + 1) :=
  (C7_call_ret exJcpu .Exact (.Literal 2) 0 2 (by decide) (by decide) (by decide)).1

end DT31Model

namespace DT31Model

/-- C8, counterexample to the claim as stated: constructing `CP` without an
explicit output is not a construction error when the source operand is
itself a reference — `CP(R.a)` succeeds, with the output defaulting to the
source. -/
theorem C8_counterexample :
    mkCP (.RegisterReference "a") none =
      .ok (.CP (.RegisterReference "a") (.RegisterReference "a")) ∧
    ∀ msg : String, mkCP (.RegisterReference "a") none ≠ .error msg := by
  constructor
  · decide
  · intro msg h
    rw [(by decide : mkCP (.RegisterReference "a") none =
      .ok (.CP (.RegisterReference "a") (.RegisterReference "a")))] at h
    exact Except.noConfusion h

/-- C8, amended: constructing `CP` without an explicit output defaults the
output to the source operand when that operand is itself a register/memory
reference, and is a construction error only when the source is not a
reference; an explicit reference output is accepted; executing `CP`
resolves the source operand and writes the resolved value to the output
(shown here for a register output). -/
theorem C8_cp_output (a out2 : Operand) (r : String) (cpu : DT31) (v p : Int) :
    (a.isReference = true → mkCP a none = .ok (.CP a a)) ∧
    ((∀ m, a ≠ .Label m) → a.isReference = false →
      mkCP a none = .error
        "CP must be called with a reference as operand out or a reference as operand a") ∧
    ((∀ m, a ≠ .Label m) → out2.isReference = true →
      mkCP a (some out2) = .ok (.CP a out2)) ∧
    (a.resolve cpu = .ok v → cpu.registers.lookup "ip" = some p →
      r ≠ "ip" → (cpu.registers.lookup r).isSome →
      ∃ c, exec (.CP a (.RegisterReference r)) cpu = .ok (v, c) ∧
        c.registers.lookup r = some v) := by
  refine ⟨?_, ?_, ?_, ?_⟩
  · intro ha
    cases a with
    | RegisterReference s => simp [mkCP, mkUnaryOut, Operand.isReference, exbind_ok]
    | MemoryReference o => simp [mkCP, mkUnaryOut, Operand.isReference, exbind_ok]
    | Literal n => simp [Operand.isReference] at ha
    | Label n => simp [Operand.isReference] at ha
  · intro hnl ha
    cases a with
    | Literal n => simp [mkCP, mkUnaryOut, Operand.isReference, exbind_err]
    | Label n => exact absurd rfl (hnl n)
    | RegisterReference s => simp [Operand.isReference] at ha
    | MemoryReference o => simp [Operand.isReference] at ha
  · intro hnl ho
    cases a with
    | Label n => exact absurd rfl (hnl n)
    | Literal n => simp [mkCP, mkUnaryOut, ho, exbind_ok]
    | RegisterReference s => simp [mkCP, mkUnaryOut, ho, exbind_ok]
    | MemoryReference o => simp [mkCP, mkUnaryOut, ho, exbind_ok]
  · intro hv hp hr hrs
    obtain ⟨w, hw⟩ := Option.isSome_iff_exists.mp hrs
    have h1 : List.lookup r (updateAssoc cpu.registers r v) = some v :=
      lookup_updateAssoc_self cpu.registers r v hrs
    have h2 : List.lookup "ip" (updateAssoc cpu.registers r v) = some p := by
      rw [lookup_updateAssoc_ne cpu.registers r "ip" v (Ne.symm hr)]
      exact hp
    have h3 : List.lookup r
        (updateAssoc (updateAssoc cpu.registers r v) "ip" (p + 1)) = some v := by
      rw [lookup_updateAssoc_ne _ "ip" r _ hr]
      exact h1
    refine ⟨{ cpu with
        registers :=
            updateAssoc (updateAssoc (updateAssoc cpu.registers r v) "ip" (p + 1))
              r v },
      ?_, ?_⟩
    · simp only [exec, hv, exbind_ok, CpuState.setItem, CpuState.set_register,
        hw, incIp, CpuState.get_register, h2, h3, exbind_ok]
    · exact lookup_updateAssoc_self _ r v (by simp [h3])

/-- Witness for `C8_cp_output`: a memory-reference source defaults the
output, and executing `CP(7, R.a)` on `exJcpu` leaves 7 in register a. -/
theorem C8_witness :
    mkCP (.MemoryReference (.Literal 0)) none =
      .ok (.CP (.MemoryReference (.Literal 0)) (.MemoryReference (.Literal 0))) ∧
    ∃ c, exec (.CP (.Literal 7) (.RegisterReference "a")) exJcpu = .ok (7, c) ∧
      c.registers.lookup "a" = some 7 :=
  ⟨(C8_cp_output (.MemoryReference (.Literal 0)) (.Literal 0) "a" exJcpu 0 0).1
      (by decide),
    (C8_cp_output (.Literal 7) (.Literal 0) "a" exJcpu 7 0).2.2.2
      (by decide) (by decide) (by decide) (by decide)⟩

end DT31Model

namespace DT31Model

lemma getD_set_ne (l : List Int) (i j : Nat) (v : Int) (h : i ≠ j) :
    (l.set i v).getD j 0 = l.getD j 0 := by
  simp [List.getD_eq_getElem?_getD, List.getElem?_set_ne h]

lemma incIp_spec (c : DT31) (q : Int) (hq : c.registers.lookup "ip" = some q) :
    incIp c = .ok { c with registers := updateAssoc c.registers "ip" (q + 1) } := by
  simp only [incIp, CpuState.get_register, hq, exbind_ok, CpuState.set_register]

lemma setItem_memIp (c : DT31) (q w : Int)
    (hq : c.registers.lookup "ip" = some q) (hwrap : c.wrap_memory = false)
    (h0 : 0 ≤ q) (hlen : q < c.memory.length) :
    c.setItem (.MemoryReference (.RegisterReference "ip")) w =
      .ok { c with memory := c.memory.set q.toNat w } := by
  simp only [CpuState.setItem, Operand.resolve, CpuState.get_register, hq,
    exbind_ok]
  simp only [CpuState.set_memory, hwrap]
  rw [if_neg (by simp), if_pos ⟨h0, hlen⟩]

/-- C10, amended: for arithmetic, bitwise, comparison and logical binary and
unary operations the single store of the computed value happens after the
instruction pointer has been advanced, so an output `M[R.ip]` is resolved
against the incremented ip and the cell at the fetch ip is untouched; `CP`
however stores its value twice — once inside its compute phase against the
pre-advance ip and once after the advance — so it writes at both the
fetch-ip-resolved and the incremented-ip-resolved addresses. -/
theorem C10_store_order (k : BinOpKind) (u : UnOpKind) (a b : Operand)
    (cpu : DT31) (p x y v : Int)
    (hip : cpu.registers.lookup "ip" = some p)
    (hwrap : cpu.wrap_memory = false)
    (h0 : 0 ≤ p) (hlen : p + 1 < cpu.memory.length) :
    (a.resolve cpu = .ok x → b.resolve cpu = .ok y → binOpValue k x y = .ok v →
      exec (.BinOp k a b (.MemoryReference (.RegisterReference "ip"))) cpu =
        .ok (v, { cpu with
          registers := updateAssoc cpu.registers "ip" (p + 1),
          memory := cpu.memory.set (p + 1).toNat v }) ∧
      (cpu.memory.set (p + 1).toNat v).getD p.toNat 0 =
        cpu.memory.getD p.toNat 0) ∧
    (a.resolve cpu = .ok x →
      exec (.UnOp u a (.MemoryReference (.RegisterReference "ip"))) cpu =
        .ok (unOpValue u x, { cpu with
          registers := updateAssoc cpu.registers "ip" (p + 1),
          memory := cpu.memory.set (p + 1).toNat (unOpValue u x) })) ∧
    (a.resolve cpu = .ok x →
      exec (.CP a (.MemoryReference (.RegisterReference "ip"))) cpu =
        .ok (x, { cpu with
          registers := updateAssoc cpu.registers "ip" (p + 1),
          memory := (cpu.memory.set p.toNat x).set (p + 1).toNat x })) := by
  have hsome : (cpu.registers.lookup "ip").isSome := by simp [hip]
  have e1 : incIp cpu =
      .ok { cpu with registers := updateAssoc cpu.registers "ip" (p + 1) } :=
    incIp_spec cpu p hip
  have hq1 : List.lookup "ip" (updateAssoc cpu.registers "ip" (p + 1)) =
      some (p + 1) := lookup_updateAssoc_self cpu.registers "ip" (p + 1) hsome
  refine ⟨?_, ?_, ?_⟩
  · intro ha hb hv
    constructor
    · have e2 := setItem_memIp
        { cpu with registers := updateAssoc cpu.registers "ip" (p + 1) }
        (p + 1) v hq1 hwrap (by omega) (by simpa using hlen)
      simp only [exec, ha, hb, hv, exbind_ok, e1, e2]
    · exact getD_set_ne cpu.memory (p + 1).toNat p.toNat v (by omega)
  · intro ha
    have e2 := setItem_memIp
      { cpu with registers := updateAssoc cpu.registers "ip" (p + 1) }
      (p + 1) (unOpValue u x) hq1 hwrap (by omega) (by simpa using hlen)
    simp only [exec, ha, exbind_ok, e1, e2]
  · intro ha
    have e0 := setItem_memIp cpu p x hip hwrap h0 (by omega)
    have e1b : incIp { cpu with memory := cpu.memory.set p.toNat x } =
        .ok { cpu with
          memory := cpu.memory.set p.toNat x,
          registers := updateAssoc cpu.registers "ip" (p + 1) } :=
      incIp_spec { cpu with memory := cpu.memory.set p.toNat x } p hip
    have e2 := setItem_memIp
      { cpu with
        memory := cpu.memory.set p.toNat x,
        registers := updateAssoc cpu.registers "ip" (p + 1) }
      (p + 1) x hq1 hwrap (by omega) (by simpa using hlen)
    simp only [exec, ha, exbind_ok, e0, e1b, e2]

end DT31Model

namespace DT31Model

/-- Concrete CPU for the store-order evidence: one register ip = 0, two
memory cells, no program needed. -/
def exMcpu : DT31 :=
  { registers := [("ip", 0)], memory := [0, 0], memory_size := 2,
    stack := [], stack_size := 1, wrap_memory := false, instructions := [] }

/-- C10, counterexample to the claim as stated: `CP(5, M[R.ip])` fetched at
ip = 0 writes 5 into memory cell 0 — the address resolved against the
pre-advance ip — as well as into cell 1, so its store is not performed only
against the incremented ip. -/
theorem C10_counterexample :
    exec (.CP (.Literal 5) (.MemoryReference (.RegisterReference "ip"))) exMcpu =
      .ok (5, { exMcpu with registers := [("ip", 1)], memory := [5, 5] }) ∧
    ([5, 5] : List Int).getD 0 0 = 5 ∧
    exMcpu.memory.getD 0 0 = 0 := by
  decide

/-- Witness for `C10_store_order`: `ADD(2, 3, M[R.ip])` on `exMcpu` stores 5
only at the post-advance address 1, leaving cell 0 untouched. -/
theorem C10_witness :
    exec (.BinOp .ADD (.Literal 2) (.Literal 3)
        (.MemoryReference (.RegisterReference "ip"))) exMcpu =
      .ok (5, { exMcpu with
        registers := updateAssoc exMcpu.registers "ip" ((0 : Int) + 1),
        memory := exMcpu.memory.set ((0 : Int) + 1).toNat 5 }) ∧
    (exMcpu.memory.set ((0 : Int) + 1).toNat 5).getD (0 : Int).toNat 0 =
      exMcpu.memory.getD (0 : Int).toNat 0 :=
  (C10_store_order .ADD .NOT (.Literal 2) (.Literal 3) exMcpu 0 2 3 5
    (by decide) (by decide) (by decide) (by decide)).1
    (by decide) (by decide) (by decide)

/-- Concrete CPU for the logical-operation evidence. -/
def exAcpu : DT31 :=
  { registers := [("a", 0), ("ip", 0)], memory := [0], memory_size := 1,
    stack := [], stack_size := 1, wrap_memory := false, instructions := [] }

/-- C2, evaluation of the code at the failing inputs: `AND._calc` is
`int(a and b)` and `OR._calc` is `int(a or b)`; Python's truthiness
connectives return one of the operands, and `int()` on an int is the
identity, so `AND(2, 3, ...)` stores 3 and `OR(5, 0, ...)` stores 5 — not
the 1 promised by the claim and by the classes' own docstrings. `XOR` and
`NOT` do clamp to 1/0. -/
theorem C2_code_eval :
    binOpValue .AND 2 3 = .ok 3 ∧
    binOpValue .OR 5 0 = .ok 5 ∧
    binOpValue .AND 2 3 ≠ .ok 1 ∧
    binOpValue .OR 5 0 ≠ .ok 1 ∧
    exec (.BinOp .AND (.Literal 2) (.Literal 3) (.RegisterReference "a")) exAcpu =
      .ok (3, { exAcpu with registers := [("a", 3), ("ip", 1)] }) ∧
    binOpValue .XOR 2 3 = .ok 0 ∧
    binOpValue .XOR 2 0 = .ok 1 ∧
    unOpValue .NOT 7 = 0 ∧
    unOpValue .NOT 0 = 1 := by
  decide

end DT31Model

namespace DT31Model

/-- First missing required field of a snapshot, in the order the modelled
`load_from_dump` checks them; `none` when all required fields are present
(the program entry is optional). -/
def missingField (s : DumpState) : Option String :=
  if s.registers = none then some "registers"
  else if s.memory = none then some "memory"
  else if s.stack = none then some "stack"
  else if s.memory_size = none then some "memory_size"
  else if s.stack_size = none then some "stack_size"
  else if s.wrap_memory = none then some "wrap_memory"
  else none

/-- C3 (spec-modelled; `dump`/`load_from_dump` are not in the source tree):
`dump()` produces a full snapshot — configuration, all register values, the
entire memory array, full stack contents, and the loaded program — and
restoring it into a fresh CPU yields a CPU whose continued execution
trajectory after every number of further steps is identical to the original
CPU's continuation; restoring from a structure missing a required field
fails naming that field, and succeeds when no required field is missing. -/
theorem C3_dump_restore (cpu : DT31) :
    ((DT31.dump cpu).registers = some cpu.registers ∧
     (DT31.dump cpu).memory = some cpu.memory ∧
     (DT31.dump cpu).stack = some cpu.stack ∧
     (DT31.dump cpu).memory_size = some cpu.memory_size ∧
     (DT31.dump cpu).stack_size = some cpu.stack_size ∧
     (DT31.dump cpu).wrap_memory = some cpu.wrap_memory ∧
     (DT31.dump cpu).program = some cpu.instructions) ∧
    (∃ cpu2, DT31.load_from_dump (DT31.dump cpu) = .ok cpu2 ∧
      ∀ n, execN cpu2 n = execN cpu n) ∧
    (∀ s : DumpState, ∀ f, missingField s = some f →
      DT31.load_from_dump s = .error ("missing required field " ++ f)) ∧
    (∀ s : DumpState, missingField s = none →
      ∃ c, DT31.load_from_dump s = .ok c) := by
  refine ⟨⟨rfl, rfl, rfl, rfl, rfl, rfl, rfl⟩, ⟨cpu, rfl, fun n => rfl⟩, ?_, ?_⟩
  · intro s f h
    simp only [missingField] at h
    by_cases h1 : s.registers = none
    · rw [if_pos h1] at h
      injection h with h
      subst h
      simp only [DT31.load_from_dump, h1]
      decide
    · obtain ⟨rs, hr⟩ := Option.ne_none_iff_exists'.mp h1
      rw [if_neg h1] at h
      by_cases h2 : s.memory = none
      · rw [if_pos h2] at h
        injection h with h
        subst h
        simp only [DT31.load_from_dump, hr, h2]
        decide
      · obtain ⟨ms, hm⟩ := Option.ne_none_iff_exists'.mp h2
        rw [if_neg h2] at h
        by_cases h3 : s.stack = none
        · rw [if_pos h3] at h
          injection h with h
          subst h
          simp only [DT31.load_from_dump, hr, hm, h3]
          decide
        · obtain ⟨sts, hst⟩ := Option.ne_none_iff_exists'.mp h3
          rw [if_neg h3] at h
          by_cases h4 : s.memory_size = none
          · rw [if_pos h4] at h
            injection h with h
            subst h
            simp only [DT31.load_from_dump, hr, hm, hst, h4]
            decide
          · obtain ⟨mss, hms⟩ := Option.ne_none_iff_exists'.mp h4
            rw [if_neg h4] at h
            by_cases h5 : s.stack_size = none
            · rw [if_pos h5] at h
              injection h with h
              subst h
              simp only [DT31.load_from_dump, hr, hm, hst, hms, h5]
              decide
            · obtain ⟨sss, hss⟩ := Option.ne_none_iff_exists'.mp h5
              rw [if_neg h5] at h
              by_cases h6 : s.wrap_memory = none
              · rw [if_pos h6] at h
                injection h with h
                subst h
                simp only [DT31.load_from_dump, hr, hm, hst, hms, hss, h6]
                decide
              · rw [if_neg h6] at h
                exact absurd h (by simp)
  · intro s hnone
    simp only [missingField] at hnone
    rcases hr : s.registers with _ | rs
    · rw [if_pos hr] at hnone
      exact absurd hnone (by simp)
    rcases hm : s.memory with _ | ms
    · rw [if_neg (by simp [hr]), if_pos hm] at hnone
      exact absurd hnone (by simp)
    rcases hst : s.stack with _ | sts
    · rw [if_neg (by simp [hr]), if_neg (by simp [hm]), if_pos hst] at hnone
      exact absurd hnone (by simp)
    rcases hms : s.memory_size with _ | mss
    · rw [if_neg (by simp [hr]), if_neg (by simp [hm]), if_neg (by simp [hst]),
        if_pos hms] at hnone
      exact absurd hnone (by simp)
    rcases hss : s.stack_size with _ | sss
    · rw [if_neg (by simp [hr]), if_neg (by simp [hm]), if_neg (by simp [hst]),
        if_neg (by simp [hms]), if_pos hss] at hnone
      exact absurd hnone (by simp)
    rcases hw : s.wrap_memory with _ | ws
    · rw [if_neg (by simp [hr]), if_neg (by simp [hm]), if_neg (by simp [hst]),
        if_neg (by simp [hms]), if_neg (by simp [hss]), if_pos hw] at hnone
      exact absurd hnone (by simp)
    refine ⟨{ registers := rs,
              memory := ms,
              stack := sts,
              memory_size := mss,
              stack_size := sss,
              wrap_memory := ws,
              instructions := s.program.getD [] }, ?_⟩
    simp only [DT31.load_from_dump, hr, hm, hst, hms, hss, hw]

/-- Snapshot with the stack field missing, for the C3 witness. -/
def badDump : DumpState :=
  { registers := some [("ip", 0)], memory := some [0], stack := none,
    memory_size := some 1, stack_size := some 1, wrap_memory := some false,
    program := none }

/-- Witness for `C3_dump_restore`: the round trip on `exCpu` and the failure
on a snapshot missing its stack field. -/
theorem C3_witness :
    (∃ cpu2, DT31.load_from_dump (DT31.dump exCpu) = .ok cpu2 ∧
      ∀ n, execN cpu2 n = execN exCpu n) ∧
    DT31.load_from_dump badDump = .error ("missing required field " ++ "stack") :=
  ⟨(C3_dump_restore exCpu).2.1,
    (C3_dump_restore exCpu).2.2.1 badDump "stack" (by decide)⟩

end DT31Model

namespace DT31Model

/-- First label name that repeats an earlier one (earlier in the list or in
`seen`), in pass-1 order — the name whose recording raises the
duplicate-label error. -/
def firstDup : List String → List String → Option String
  | [], _ => none
  | n :: rest, seen => if n ∈ seen then some n else firstDup rest (seen ++ [n])

lemma lookup_isSome_iff_mem {β : Type} (l : List (String × β)) (n : String) :
    (l.lookup n).isSome ↔ n ∈ l.map Prod.fst := by
  induction l with
  | nil => simp [List.lookup]
  | cons kv rest ih =>
    obtain ⟨k, v⟩ := kv
    by_cases h : n = k
    · subst h
      simp [List.lookup]
    · have hne : (n == k) = false := by simp [h]
      simp [List.lookup, hne, h, ih]

lemma pass1_spec (p : List Item) : ∀ (acc : List Instr)
    (tbl : List (String × Nat)),
    pass1 p acc tbl =
      match firstDup (definedLabels p) (tbl.map Prod.fst) with
      | some n => .error (.duplicateLabel n)
      | none => .ok (acc ++ instrsOf p, tbl ++ tblOf p acc.length) := by
  induction p with
  | nil => intro acc tbl; simp [pass1, firstDup, definedLabels, instrsOf, tblOf]
  | cons item rest ih =>
    intro acc tbl
    cases item with
    | label n =>
      by_cases hmem : n ∈ tbl.map Prod.fst
      · have hlk : (tbl.lookup n).isSome :=
          (lookup_isSome_iff_mem tbl n).mpr hmem
        simp [pass1, hlk, definedLabels, firstDup, hmem]
      · have hlk : (tbl.lookup n).isSome = false := by
          rw [Bool.eq_false_iff]
          intro hs
          exact hmem ((lookup_isSome_iff_mem tbl n).mp hs)
        rw [show pass1 (Item.label n :: rest) acc tbl =
          pass1 rest acc (tbl ++ [(n, acc.length)]) from by simp [pass1, hlk]]
        rw [ih acc (tbl ++ [(n, acc.length)])]
        rw [show definedLabels (Item.label n :: rest) = n :: definedLabels rest
          from rfl]
        rw [show firstDup (n :: definedLabels rest) (tbl.map Prod.fst) =
          firstDup (definedLabels rest) (tbl.map Prod.fst ++ [n])
          from by simp [firstDup, hmem]]
        rw [show (tbl ++ [(n, acc.length)]).map Prod.fst =
          tbl.map Prod.fst ++ [n] from by simp]
        cases hfd : firstDup (definedLabels rest) (tbl.map Prod.fst ++ [n]) with
        | none => simp [instrsOf, tblOf, List.append_assoc]
        | some m => simp
    | comment t =>
      simpa [pass1, definedLabels, instrsOf, tblOf] using ih acc tbl
    | instr i =>
      simp only [pass1, definedLabels, instrsOf, tblOf]
      rw [ih (acc ++ [i]) tbl]
      cases hfd : firstDup (definedLabels rest) (tbl.map Prod.fst) with
      | none => simp [List.append_assoc]
      | some m => simp

lemma lookup_tblOf (p : List Item) : ∀ (k : Nat) (n : String),
    (tblOf p k).lookup n = (labelPos p n).map (· + k) := by
  induction p with
  | nil => intro k n; simp [tblOf, labelPos, List.lookup]
  | cons item rest ih =>
    intro k n
    cases item with
    | label m =>
      by_cases h : m = n
      · subst h
        simp [tblOf, labelPos, List.lookup]
      · have hne : (n == m) = false := by simp [Ne.symm h]
        simp [tblOf, labelPos, List.lookup, hne, h, ih k n]
    | comment t => simp [tblOf, labelPos, ih k n]
    | instr i =>
      simp only [tblOf, labelPos, ih (k + 1) n]
      cases labelPos rest n with
      | none => rfl
      | some x =>
        simp only [Option.map_some']
        congr 1
        omega

end DT31Model

namespace DT31Model

lemma firstDup_none_of_nodup : ∀ (l seen : List String), l.Nodup →
    (∀ x ∈ l, x ∉ seen) → firstDup l seen = none := by
  intro l
  induction l with
  | nil => intro seen _ _; rfl
  | cons n rest ih =>
    intro seen hnd hdisj
    have hn : n ∉ seen := hdisj n (by simp)
    rw [show firstDup (n :: rest) seen = firstDup rest (seen ++ [n])
      from by simp [firstDup, hn]]
    refine ih (seen ++ [n]) (List.Nodup.of_cons hnd) ?_
    intro x hx
    simp only [List.mem_append, List.mem_singleton]
    rintro (hs | rfl)
    · exact hdisj x (by simp [hx]) hs
    · exact (List.nodup_cons.mp hnd).1 hx

lemma firstDup_some_mem : ∀ (l seen : List String) (n : String),
    firstDup l seen = some n → n ∈ l := by
  intro l
  induction l with
  | nil => intro seen n h; exact absurd h (by simp [firstDup])
  | cons m rest ih =>
    intro seen n h
    by_cases hm : m ∈ seen
    · simp [firstDup, hm] at h
      simp [h]
    · rw [show firstDup (m :: rest) seen = firstDup rest (seen ++ [m])
        from by simp [firstDup, hm]] at h
      exact List.mem_cons_of_mem m (ih (seen ++ [m]) n h)

lemma firstDup_isSome_of_mem_seen : ∀ (l seen : List String) (x : String),
    x ∈ l → x ∈ seen → (firstDup l seen).isSome := by
  intro l
  induction l with
  | nil => intro seen x hx; exact absurd hx (by simp)
  | cons m rest ih =>
    intro seen x hx hs
    by_cases hm : m ∈ seen
    · simp [firstDup, hm]
    · rw [show firstDup (m :: rest) seen = firstDup rest (seen ++ [m])
        from by simp [firstDup, hm]]
      rcases List.mem_cons.mp hx with rfl | hx2
      · exact absurd hs hm
      · exact ih (seen ++ [m]) x hx2 (by simp [hs])

lemma firstDup_isSome_of_not_nodup : ∀ (l seen : List String), ¬ l.Nodup →
    (firstDup l seen).isSome := by
  intro l
  induction l with
  | nil => intro seen h; exact absurd List.nodup_nil h
  | cons m rest ih =>
    intro seen h
    by_cases hm : m ∈ seen
    · simp [firstDup, hm]
    · rw [show firstDup (m :: rest) seen = firstDup rest (seen ++ [m])
        from by simp [firstDup, hm]]
      by_cases hrest : rest.Nodup
      · have hmem : m ∈ rest := by
          by_contra hmr
          exact h (List.nodup_cons.mpr ⟨hmr, hrest⟩)
        exact firstDup_isSome_of_mem_seen rest (seen ++ [m]) m hmem (by simp)
      · exact ih (seen ++ [m]) hrest

lemma firstDup_some_count : ∀ (l seen : List String) (n : String),
    firstDup l seen = some n → n ∈ seen ∨ 2 ≤ l.count n := by
  intro l
  induction l with
  | nil => intro seen n h; exact absurd h (by simp [firstDup])
  | cons m rest ih =>
    intro seen n h
    by_cases hm : m ∈ seen
    · have hnm : n = m := by simpa [firstDup, hm] using h.symm
      subst hnm
      exact Or.inl hm
    · rw [show firstDup (m :: rest) seen = firstDup rest (seen ++ [m])
        from by simp [firstDup, hm]] at h
      rcases ih (seen ++ [m]) n h with hs | hc
      · rcases List.mem_append.mp hs with hs2 | hs2
        · exact Or.inl hs2
        · have hnm : n = m := by simpa using hs2
          subst hnm
          have hmem : n ∈ rest := firstDup_some_mem rest (seen ++ [n]) n h
          have hcnt : rest.count n ≠ 0 := fun h0 => (List.count_eq_zero.mp h0) hmem
          right
          rw [List.count_cons_self]
          omega
      · right
        rw [List.count_cons]
        omega

end DT31Model

namespace DT31Model

/-- Total version of the pass-2 substitution, used to describe the output
when every referenced label is in the table (the fallback branch is then
unreachable). -/
def resolveTotal (tbl : List (String × Nat)) (ip : Nat) (inst : Instr) : Instr :=
  match destOf inst with
  | some (.Label n) =>
    match tbl.lookup n with
    | some target =>
      if isRelative inst then setDest inst (.Literal ((target : Int) - (ip : Int)))
      else setDest inst (.Literal (target : Int))
    | none => inst
  | _ => inst

/-- Total version of pass 2. -/
def pass2t (tbl : List (String × Nat)) : List Instr → Nat → List Instr
  | [], _ => []
  | i :: rest, ip => resolveTotal tbl ip i :: pass2t tbl rest (ip + 1)

/-- Name carried by the first `Undefined label` failure of pass 2, in
iteration order; `none` when every referenced label is in the table. -/
def firstUnresolved (tbl : List (String × Nat)) : List Instr → Option String
  | [] => none
  | i :: rest =>
    match destOf i with
    | some (.Label n) =>
      if (tbl.lookup n).isSome then firstUnresolved tbl rest else some n
    | _ => firstUnresolved tbl rest

lemma pass2_spec (tbl : List (String × Nat)) : ∀ (prog : List Instr) (k : Nat),
    pass2 tbl prog k =
      match firstUnresolved tbl prog with
      | some n => .error (.undefinedLabel n)
      | none => .ok (pass2t tbl prog k) := by
  intro prog
  induction prog with
  | nil => intro k; rfl
  | cons i rest ih =>
    intro k
    cases hd : destOf i with
    | none =>
      have hr : resolveDest tbl k i = .ok i := by simp [resolveDest, hd]
      have hu : firstUnresolved tbl (i :: rest) = firstUnresolved tbl rest := by
        simp [firstUnresolved, hd]
      have ht : resolveTotal tbl k i = i := by simp [resolveTotal, hd]
      simp only [pass2, hr, exbind_ok, ih (k + 1), hu, pass2t, ht]
      cases firstUnresolved tbl rest with
      | none => rfl
      | some m => rfl
    | some op =>
      cases op with
      | Label n =>
        cases hlk : tbl.lookup n with
        | none =>
          have hr : resolveDest tbl k i = .error (.undefinedLabel n) := by
            simp [resolveDest, hd, hlk]
          have hu : firstUnresolved tbl (i :: rest) = some n := by
            simp [firstUnresolved, hd, hlk]
          simp only [pass2, hr, exbind_err, hu]
        | some target =>
          have hr : resolveDest tbl k i = .ok (resolveTotal tbl k i) := by
            simp only [resolveDest, resolveTotal, hd, hlk]
            by_cases hrel : isRelative i <;> simp [hrel]
          have hu : firstUnresolved tbl (i :: rest) = firstUnresolved tbl rest := by
            simp [firstUnresolved, hd, hlk]
          simp only [pass2, hr, exbind_ok, ih (k + 1), hu, pass2t]
          cases firstUnresolved tbl rest with
          | none => rfl
          | some m => rfl
      | Literal v =>
        have hr : resolveDest tbl k i = .ok i := by simp [resolveDest, hd]
        have hu : firstUnresolved tbl (i :: rest) = firstUnresolved tbl rest := by
          simp [firstUnresolved, hd]
        have ht : resolveTotal tbl k i = i := by simp [resolveTotal, hd]
        simp only [pass2, hr, exbind_ok, ih (k + 1), hu, pass2t, ht]
        cases firstUnresolved tbl rest with
        | none => rfl
        | some m => rfl
      | RegisterReference r =>
        have hr : resolveDest tbl k i = .ok i := by simp [resolveDest, hd]
        have hu : firstUnresolved tbl (i :: rest) = firstUnresolved tbl rest := by
          simp [firstUnresolved, hd]
        have ht : resolveTotal tbl k i = i := by simp [resolveTotal, hd]
        simp only [pass2, hr, exbind_ok, ih (k + 1), hu, pass2t, ht]
        cases firstUnresolved tbl rest with
        | none => rfl
        | some m => rfl
      | MemoryReference a =>
        have hr : resolveDest tbl k i = .ok i := by simp [resolveDest, hd]
        have hu : firstUnresolved tbl (i :: rest) = firstUnresolved tbl rest := by
          simp [firstUnresolved, hd]
        have ht : resolveTotal tbl k i = i := by simp [resolveTotal, hd]
        simp only [pass2, hr, exbind_ok, ih (k + 1), hu, pass2t, ht]
        cases firstUnresolved tbl rest with
        | none => rfl
        | some m => rfl

lemma pass2t_length (tbl : List (String × Nat)) : ∀ (prog : List Instr) (k : Nat),
    (pass2t tbl prog k).length = prog.length := by
  intro prog
  induction prog with
  | nil => intro k; rfl
  | cons i rest ih => intro k; simp [pass2t, ih (k + 1)]

lemma pass2t_getD (tbl : List (String × Nat)) : ∀ (prog : List Instr)
    (k j : Nat), j < prog.length →
    (pass2t tbl prog k).getD j .NOOP = resolveTotal tbl (k + j) (prog.getD j .NOOP) := by
  intro prog
  induction prog with
  | nil => intro k j hj; exact absurd hj (by simp)
  | cons i rest ih =>
    intro k j hj
    cases j with
    | zero => rfl
    | succ j2 =>
      have hj2 : j2 < rest.length := by simpa using hj
      have := ih (k + 1) j2 hj2
      simpa [pass2t, Nat.add_assoc, Nat.add_comm 1 j2] using this

lemma firstUnresolved_none (tbl : List (String × Nat)) : ∀ (prog : List Instr),
    (∀ i ∈ prog, ∀ n, destOf i = some (.Label n) → (tbl.lookup n).isSome) →
    firstUnresolved tbl prog = none := by
  intro prog
  induction prog with
  | nil => intro _; rfl
  | cons i rest ih =>
    intro h
    have hrest := ih (fun x hx n hd => h x (by simp [hx]) n hd)
    cases hd : destOf i with
    | none => simpa [firstUnresolved, hd] using hrest
    | some op =>
      cases op with
      | Label n =>
        have := h i (by simp) n hd
        simpa [firstUnresolved, hd, this] using hrest
      | Literal v => simpa [firstUnresolved, hd] using hrest
      | RegisterReference r => simpa [firstUnresolved, hd] using hrest
      | MemoryReference a => simpa [firstUnresolved, hd] using hrest

lemma destOf_setDest (i : Instr) (d : Operand) (h : (destOf i).isSome) :
    destOf (setDest i d) = some d := by
  cases i <;> simp [destOf, setDest] at h ⊢

lemma isRelative_setDest (i : Instr) (d : Operand) :
    isRelative (setDest i d) = isRelative i := by
  cases i with
  | Jump ak c dd => cases ak <;> rfl
  | CALL ak dd => cases ak <;> rfl
  | NOOP => rfl
  | BinOp k a b o => rfl
  | UnOp k a o => rfl
  | CP a o => rfl
  | RET => rfl
  | PUSH a => rfl
  | POP o => rfl
  | SEMP o => rfl

end DT31Model

namespace DT31Model

lemma lookup_tblOf_zero (p : List Item) (n : String) :
    (tblOf p 0).lookup n = labelPos p n := by
  rw [lookup_tblOf]
  cases labelPos p n <;> simp

lemma assemble_ok_of_resolved (program : List Item)
    (hnodup : (definedLabels program).Nodup)
    (hdef : ∀ inst ∈ instrsOf program, ∀ n, destOf inst = some (.Label n) →
      (labelPos program n).isSome) :
    assemble program =
      .ok (pass2t (tblOf program 0) (instrsOf program) 0) := by
  have hp1 : pass1 program [] [] = .ok (instrsOf program, tblOf program 0) := by
    rw [pass1_spec]
    rw [firstDup_none_of_nodup _ _ hnodup (by simp)]
    simp
  have hfu : firstUnresolved (tblOf program 0) (instrsOf program) = none := by
    refine firstUnresolved_none _ _ ?_
    intro i hi n hd
    rw [lookup_tblOf_zero]
    exact hdef i hi n hd
  have hp2 : pass2 (tblOf program 0) (instrsOf program) 0 =
      .ok (pass2t (tblOf program 0) (instrsOf program) 0) := by
    rw [pass2_spec, hfu]
  simp only [assemble, hp1, exbind_ok]
  exact hp2

/-- C1: for every program whose labels are pairwise distinct and whose
referenced labels are all defined, `assemble` succeeds, its output has one
slot per instruction entry, and every jump/call whose `dest` held a label
gets a literal destination: `target_position - own_position` for the
relative-addressing instructions (RJMP/RJEQ/RJNE/RJGT/RJGE/RJIF/RCALL) and
`target_position` itself for the absolute ones (JMP/JEQ/JNE/JGT/JGE/JIF/
CALL), where `target_position` is `labelPos` — the pass-1 position counter,
counting only instruction entries (labels occupy no slot). -/
theorem C1_assemble_destinations (program : List Item)
    (hnodup : (definedLabels program).Nodup)
    (hdef : ∀ inst ∈ instrsOf program, ∀ n, destOf inst = some (.Label n) →
      (labelPos program n).isSome) :
    ∃ out, assemble program = .ok out ∧
      out.length = (instrsOf program).length ∧
      ∀ j, j < out.length → ∀ n,
        destOf ((instrsOf program).getD j .NOOP) = some (.Label n) →
        ∃ t, labelPos program n = some t ∧
          destOf (out.getD j .NOOP) =
            some (.Literal
              (if isRelative ((instrsOf program).getD j .NOOP)
               then (t : Int) - (j : Int) else (t : Int))) := by
  refine ⟨pass2t (tblOf program 0) (instrsOf program) 0,
    assemble_ok_of_resolved program hnodup hdef, pass2t_length _ _ _, ?_⟩
  intro j hj n hd
  rw [pass2t_length] at hj
  have hmem : (instrsOf program).getD j .NOOP ∈ instrsOf program := by
    rw [List.getD_eq_getElem?_getD, List.getElem?_eq_getElem hj]
    exact List.getElem_mem _
  obtain ⟨t, ht⟩ :=
    Option.isSome_iff_exists.mp (hdef _ hmem n hd)
  refine ⟨t, ht, ?_⟩
  rw [pass2t_getD _ _ _ _ hj]
  have hds : (destOf ((instrsOf program).getD j .NOOP)).isSome := by
    rw [hd]
    rfl
  simp only [resolveTotal, hd, lookup_tblOf_zero, ht, Nat.zero_add]
  by_cases hrel : isRelative ((instrsOf program).getD j .NOOP)
  · simp only [hrel, if_true, if_pos]
    exact destOf_setDest _ _ hds
  · simp only [hrel, if_false, Bool.false_eq_true, if_neg]
    exact destOf_setDest _ _ hds

end DT31Model

namespace DT31Model

/-- Scenario-B-like program: a leading label, a NOOP, an absolute jump back
to the label and a relative jump back to it. -/
def prgB : List Item :=
  [.label "start", .instr .NOOP,
   .instr (.Jump .Exact .Unconditional (.Label "start")),
   .instr (.Jump .Relative .Unconditional (.Label "start"))]

/-- Witness for `C1_assemble_destinations` on `prgB`. -/
theorem C1_witness :
    ∃ out, assemble prgB = .ok out ∧
      out.length = (instrsOf prgB).length ∧
      ∀ j, j < out.length → ∀ n,
        destOf ((instrsOf prgB).getD j .NOOP) = some (.Label n) →
        ∃ t, labelPos prgB n = some t ∧
          destOf (out.getD j .NOOP) =
            some (.Literal
              (if isRelative ((instrsOf prgB).getD j .NOOP)
               then (t : Int) - (j : Int) else (t : Int))) := by
  refine C1_assemble_destinations prgB (by decide) ?_
  intro inst hi n hd
  simp only [prgB, instrsOf, List.mem_cons, List.not_mem_nil, or_false] at hi
  rcases hi with rfl | rfl | rfl
  · exact absurd hd (by simp [destOf])
  · simp only [destOf, Option.some.injEq, Operand.Label.injEq] at hd
    subst hd
    decide
  · simp only [destOf, Option.some.injEq, Operand.Label.injEq] at hd
    subst hd
    decide

end DT31Model

namespace DT31Model

/-- Helper walk behind `firstUndefinedRef`, phrased directly with the
pass-1 label positions. -/
def firstUndefinedIn (program : List Item) : List Instr → Option String
  | [] => none
  | i :: rest =>
    match destOf i with
    | some (.Label n) =>
      if (labelPos program n).isSome then firstUndefinedIn program rest
      else some n
    | _ => firstUndefinedIn program rest

/-- Name of the first label reference, in pass-2 iteration order, that no
label definition resolves; `none` when all references are defined. -/
def firstUndefinedRef (program : List Item) : Option String :=
  firstUndefinedIn program (instrsOf program)

lemma firstUndefinedIn_eq (program : List Item) : ∀ (l : List Instr),
    firstUndefinedIn program l = firstUnresolved (tblOf program 0) l := by
  intro l
  induction l with
  | nil => rfl
  | cons i rest ih =>
    cases hd : destOf i with
    | none => simpa [firstUndefinedIn, firstUnresolved, hd] using ih
    | some op =>
      cases op with
      | Label n =>
        simp [firstUndefinedIn, firstUnresolved, hd, lookup_tblOf_zero, ih]
      | Literal v => simpa [firstUndefinedIn, firstUnresolved, hd] using ih
      | RegisterReference r =>
        simpa [firstUndefinedIn, firstUnresolved, hd] using ih
      | MemoryReference a =>
        simpa [firstUndefinedIn, firstUnresolved, hd] using ih

lemma firstUndefinedIn_some (program : List Item) : ∀ (l : List Instr)
    (n : String), firstUndefinedIn program l = some n →
    labelPos program n = none := by
  intro l
  induction l with
  | nil => intro n h; exact absurd h (by simp [firstUndefinedIn])
  | cons i rest ih =>
    intro n h
    cases hd : destOf i with
    | none =>
      rw [show firstUndefinedIn program (i :: rest) =
        firstUndefinedIn program rest from by simp [firstUndefinedIn, hd]] at h
      exact ih n h
    | some op =>
      cases op with
      | Label m =>
        by_cases hs : (labelPos program m).isSome
        · rw [show firstUndefinedIn program (i :: rest) =
            firstUndefinedIn program rest
            from by simp [firstUndefinedIn, hd, hs]] at h
          exact ih n h
        · rw [show firstUndefinedIn program (i :: rest) = some m
            from by simp [firstUndefinedIn, hd, hs]] at h
          injection h with h
          subst h
          exact Option.not_isSome_iff_eq_none.mp hs
      | Literal v =>
        rw [show firstUndefinedIn program (i :: rest) =
          firstUndefinedIn program rest from by simp [firstUndefinedIn, hd]] at h
        exact ih n h
      | RegisterReference r =>
        rw [show firstUndefinedIn program (i :: rest) =
          firstUndefinedIn program rest from by simp [firstUndefinedIn, hd]] at h
        exact ih n h
      | MemoryReference a =>
        rw [show firstUndefinedIn program (i :: rest) =
          firstUndefinedIn program rest from by simp [firstUndefinedIn, hd]] at h
        exact ih n h

/-- C4: a program defining some label name more than once always fails with
the duplicate-label error naming a label that is defined more than once; a
program with distinct labels but an undefined reference fails with the
undefined-label error naming the first unresolved reference in iteration
order (whose position is indeed recorded nowhere); and a program with
distinct, all-defined labels raises neither error. -/
theorem C4_assemble_errors (program : List Item) :
    (¬ (definedLabels program).Nodup →
      ∃ n, 2 ≤ (definedLabels program).count n ∧
        assemble program = .error (.duplicateLabel n)) ∧
    ((definedLabels program).Nodup →
      ∀ n, firstUndefinedRef program = some n →
        labelPos program n = none ∧
        assemble program = .error (.undefinedLabel n)) ∧
    ((definedLabels program).Nodup →
      (∀ inst ∈ instrsOf program, ∀ n, destOf inst = some (.Label n) →
        (labelPos program n).isSome) →
      ∃ out, assemble program = .ok out) := by
  refine ⟨?_, ?_, ?_⟩
  · intro hdup
    obtain ⟨n, hn⟩ := Option.isSome_iff_exists.mp
      (firstDup_isSome_of_not_nodup (definedLabels program) [] hdup)
    refine ⟨n, ?_, ?_⟩
    · rcases firstDup_some_count (definedLabels program) [] n hn with hs | hc
      · exact absurd hs (by simp)
      · exact hc
    · have hp1 : pass1 program [] [] = .error (.duplicateLabel n) := by
        rw [pass1_spec]
        simp only [List.map_nil]
        rw [hn]
      simp only [assemble, hp1, exbind_err]
  · intro hnd n hf
    refine ⟨firstUndefinedIn_some program (instrsOf program) n hf, ?_⟩
    have hp1 : pass1 program [] [] = .ok (instrsOf program, tblOf program 0) := by
      rw [pass1_spec]
      rw [firstDup_none_of_nodup _ _ hnd (by simp)]
      simp
    have hfu : firstUnresolved (tblOf program 0) (instrsOf program) = some n := by
      rw [← firstUndefinedIn_eq]
      exact hf
    have hp2 : pass2 (tblOf program 0) (instrsOf program) 0 =
        .error (.undefinedLabel n) := by
      rw [pass2_spec, hfu]
    simp only [assemble, hp1, exbind_ok]
    exact hp2
  · intro hnd hdef
    exact ⟨_, assemble_ok_of_resolved program hnd hdef⟩

/-- Program defining label x twice, for the C4 witness. -/
def dupProg : List Item := [.label "x", .instr .NOOP, .label "x"]

/-- Program referencing an undefined label, for the C4 witness. -/
def undefProg : List Item :=
  [.instr (.Jump .Exact .Unconditional (.Label "nope"))]

/-- Label-free one-instruction program, for the C4 witness. -/
def okProg : List Item := [.instr .NOOP]

/-- Witness for `C4_assemble_errors` on `dupProg`, `undefProg`, `okProg`. -/
theorem C4_witness :
    (∃ n, 2 ≤ (definedLabels dupProg).count n ∧
      assemble dupProg = .error (.duplicateLabel n)) ∧
    (labelPos undefProg "nope" = none ∧
      assemble undefProg = .error (.undefinedLabel "nope")) ∧
    (∃ out, assemble okProg = .ok out) :=
  ⟨(C4_assemble_errors dupProg).1 (by decide),
    (C4_assemble_errors undefProg).2.1 (by decide) "nope" (by decide),
    (C4_assemble_errors okProg).2.2 (by decide) (by
      intro inst hi n hd
      simp only [okProg, instrsOf, List.mem_cons, List.not_mem_nil,
        or_false] at hi
      subst hi
      exact absurd hd (by simp [destOf]))⟩

end DT31Model

namespace DT31Model

lemma heapGet_append (h ext : Heap) (a : Nat) (ha : a < h.length) :
    heapGet (h ++ ext) a = heapGet h a := by
  simp only [heapGet]
  exact List.getD_append h ext .NOOP a ha

lemma heapGet_append_right (h ext : Heap) (i : Nat) :
    heapGet (h ++ ext) (h.length + i) = heapGet ext i := by
  simp only [heapGet]
  rw [List.getD_append_right h ext .NOOP (h.length + i) (by omega)]
  congr 1
  omega

lemma heapGet_set_ne (h : Heap) (a b : Nat) (v : Instr) (hne : a ≠ b) :
    heapGet (h.set a v) b = heapGet h b := by
  simp [heapGet, List.getD_eq_getElem?_getD, List.getElem?_set_ne hne]

lemma refContents_length (h : Heap) : ∀ (p : List ProgItem),
    (refContents h p).length = refCount p := by
  intro p
  induction p with
  | nil => rfl
  | cons item rest ih =>
    cases item with
    | instrRef a => simp [refContents, refCount, ih]
    | label n => simpa [refContents, refCount] using ih
    | comment t => simpa [refContents, refCount] using ih

lemma refContents_congr (h h2 : Heap) : ∀ (p : List ProgItem),
    (∀ item ∈ p, ∀ a : Nat, item = .instrRef a → heapGet h2 a = heapGet h a) →
    refContents h2 p = refContents h p := by
  intro p
  induction p with
  | nil => intro _; rfl
  | cons item rest ih =>
    intro hc
    have hrest := ih (fun x hx a ha => hc x (by simp [hx]) a ha)
    cases item with
    | instrRef a =>
      simp only [refContents, hrest]
      rw [hc (.instrRef a) (by simp) a rfl]
    | label n => simpa [refContents] using hrest
    | comment t => simpa [refContents] using hrest

lemma refContents_mem (h : Heap) : ∀ (p : List ProgItem) (x : Instr),
    x ∈ refContents h p → ∃ a : Nat, ProgItem.instrRef a ∈ p ∧ x = heapGet h a := by
  intro p
  induction p with
  | nil => intro x hx; exact absurd hx (by simp [refContents])
  | cons item rest ih =>
    intro x hx
    cases item with
    | instrRef a =>
      rcases List.mem_cons.mp hx with rfl | hx2
      · exact ⟨a, by simp, rfl⟩
      · obtain ⟨b, hb, he⟩ := ih x hx2
        exact ⟨b, by simp [hb], he⟩
    | label n =>
      obtain ⟨b, hb, he⟩ := ih x (by simpa [refContents] using hx)
      exact ⟨b, by simp [hb], he⟩
    | comment t =>
      obtain ⟨b, hb, he⟩ := ih x (by simpa [refContents] using hx)
      exact ⟨b, by simp [hb], he⟩

lemma map_range'_heapGet : ∀ (ext h : Heap),
    (List.range' h.length ext.length).map (heapGet (h ++ ext)) = ext := by
  intro ext
  induction ext with
  | nil => intro h; rfl
  | cons x rest ih =>
    intro h
    rw [show (x :: rest).length = rest.length + 1 from rfl, List.range'_succ]
    simp only [List.map_cons]
    have h1 : heapGet (h ++ x :: rest) h.length = x := by
      simp only [heapGet]
      rw [List.getD_append_right h (x :: rest) .NOOP h.length (by omega)]
      simp
    have h2 : (List.range' (h.length + 1) rest.length).map
        (heapGet (h ++ x :: rest)) = rest := by
      have hre : h ++ x :: rest = (h ++ [x]) ++ rest := by simp
      have hlen : h.length + 1 = (h ++ [x]).length := by simp
      rw [hre, hlen]
      exact ih (h ++ [x])
    rw [h1, h2]

end DT31Model

namespace DT31Model

lemma hpass1_extend : ∀ (p : List ProgItem) (h : Heap) (acc : List Nat)
    (tbl : List (String × Nat)), ∃ ext, (hpass1 h p acc tbl).1 = h ++ ext := by
  intro p
  induction p with
  | nil => intro h acc tbl; exact ⟨[], by simp [hpass1]⟩
  | cons item rest ih =>
    intro h acc tbl
    cases item with
    | label n =>
      by_cases hdup : (tbl.lookup n).isSome
      · exact ⟨[], by simp [hpass1, hdup]⟩
      · obtain ⟨ext, he⟩ := ih h acc (tbl ++ [(n, acc.length)])
        exact ⟨ext, by simpa [hpass1, hdup] using he⟩
    | comment t =>
      obtain ⟨ext, he⟩ := ih h acc tbl
      exact ⟨ext, by simpa [hpass1] using he⟩
    | instrRef a =>
      obtain ⟨ext, he⟩ := ih (h ++ [heapGet h a]) (acc ++ [h.length]) tbl
      exact ⟨[heapGet h a] ++ ext, by simpa [hpass1] using he⟩

lemma hpass1_ok_inv : ∀ (p : List ProgItem) (h : Heap) (acc : List Nat)
    (tbl : List (String × Nat)) (h2 : Heap) (addrs : List Nat)
    (tbl2 : List (String × Nat)),
    heapWf h p →
    hpass1 h p acc tbl = (h2, .ok (addrs, tbl2)) →
    h2 = h ++ refContents h p ∧
    addrs = acc ++ List.range' h.length (refCount p) := by
  intro p
  induction p with
  | nil =>
    intro h acc tbl h2 addrs tbl2 _ he
    simp only [hpass1, Prod.mk.injEq, Except.ok.injEq] at he
    obtain ⟨he1, he2, _⟩ := he
    exact ⟨by simp [refContents, he1.symm], by simp [refCount, he2.symm]⟩
  | cons item rest ih =>
    intro h acc tbl h2 addrs tbl2 hwf he
    have hwfrest : heapWf h rest :=
      fun x hx a ha => hwf x (by simp [hx]) a ha
    cases item with
    | label n =>
      by_cases hdup : (tbl.lookup n).isSome
      · rw [show hpass1 h (ProgItem.label n :: rest) acc tbl =
          (h, .error (.duplicateLabel n)) from by simp [hpass1, hdup]] at he
        simp only [Prod.mk.injEq] at he
        exact absurd he.2 (by simp)
      · rw [show hpass1 h (ProgItem.label n :: rest) acc tbl =
          hpass1 h rest acc (tbl ++ [(n, acc.length)])
          from by simp [hpass1, hdup]] at he
        obtain ⟨k1, k2⟩ := ih h acc (tbl ++ [(n, acc.length)]) h2 addrs tbl2
          hwfrest he
        exact ⟨by simpa [refContents] using k1, by simpa [refCount] using k2⟩
    | comment t =>
      rw [show hpass1 h (ProgItem.comment t :: rest) acc tbl =
        hpass1 h rest acc tbl from by simp [hpass1]] at he
      obtain ⟨k1, k2⟩ := ih h acc tbl h2 addrs tbl2 hwfrest he
      exact ⟨by simpa [refContents] using k1, by simpa [refCount] using k2⟩
    | instrRef a =>
      have ha : a < h.length := hwf (.instrRef a) (by simp) a rfl
      rw [show hpass1 h (ProgItem.instrRef a :: rest) acc tbl =
        hpass1 (h ++ [heapGet h a]) rest (acc ++ [h.length]) tbl
        from by simp [hpass1]] at he
      have hwf2 : heapWf (h ++ [heapGet h a]) rest := by
        intro x hx b hb
        have := hwfrest x hx b hb
        simp only [List.length_append, List.length_singleton]
        omega
      obtain ⟨k1, k2⟩ := ih (h ++ [heapGet h a]) (acc ++ [h.length]) tbl h2
        addrs tbl2 hwf2 he
      have hcongr : refContents (h ++ [heapGet h a]) rest = refContents h rest := by
        refine refContents_congr h (h ++ [heapGet h a]) rest ?_
        intro x hx b hb
        exact heapGet_append h [heapGet h a] b (hwfrest x hx b hb)
      constructor
      · rw [k1, hcongr]
        simp [refContents]
      · rw [k2]
        rw [show refCount (ProgItem.instrRef a :: rest) = refCount rest + 1
          from rfl]
        rw [List.range'_succ]
        simp [List.append_assoc, List.length_append]

lemma hpass1_ok_of_nolabels : ∀ (p : List ProgItem) (h : Heap) (acc : List Nat)
    (tbl : List (String × Nat)),
    (∀ item ∈ p, ∀ n : String, item ≠ .label n) →
    ∃ h2 addrs tbl2, hpass1 h p acc tbl = (h2, .ok (addrs, tbl2)) := by
  intro p
  induction p with
  | nil => intro h acc tbl _; exact ⟨h, acc, tbl, rfl⟩
  | cons item rest ih =>
    intro h acc tbl hnl
    cases item with
    | label n => exact absurd rfl (hnl (.label n) (by simp) n)
    | comment t =>
      obtain ⟨h2, addrs, tbl2, he⟩ := ih h acc tbl
        (fun x hx n => hnl x (by simp [hx]) n)
      exact ⟨h2, addrs, tbl2, by simpa [hpass1] using he⟩
    | instrRef a =>
      obtain ⟨h2, addrs, tbl2, he⟩ := ih (h ++ [heapGet h a])
        (acc ++ [h.length]) tbl (fun x hx n => hnl x (by simp [hx]) n)
      exact ⟨h2, addrs, tbl2, by simpa [hpass1] using he⟩

end DT31Model

namespace DT31Model

lemma hpass2_keep : ∀ (addrs : List Nat) (h : Heap) (ip : Nat)
    (tbl : List (String × Nat)) (b : Nat), (∀ a ∈ addrs, b ≠ a) →
    heapGet (hpass2 h addrs ip tbl).1 b = heapGet h b := by
  intro addrs
  induction addrs with
  | nil => intro h ip tbl b _; rfl
  | cons a rest ih =>
    intro h ip tbl b hb
    have hba : b ≠ a := hb a (by simp)
    have hbrest : ∀ x ∈ rest, b ≠ x := fun x hx => hb x (by simp [hx])
    cases hd : destOf (heapGet h a) with
    | none =>
      rw [show hpass2 h (a :: rest) ip tbl = hpass2 h rest (ip + 1) tbl
        from by simp [hpass2, hd]]
      exact ih h (ip + 1) tbl b hbrest
    | some op =>
      cases op with
      | Label n =>
        cases hlk : tbl.lookup n with
        | none =>
          rw [show hpass2 h (a :: rest) ip tbl = (h, .error (.undefinedLabel n))
            from by simp [hpass2, hd, hlk]]
        | some target =>
          rw [show hpass2 h (a :: rest) ip tbl =
            hpass2 (h.set a (setDest (heapGet h a)
              (if isRelative (heapGet h a)
               then .Literal ((target : Int) - (ip : Int))
               else .Literal (target : Int)))) rest (ip + 1) tbl
            from by simp [hpass2, hd, hlk]]
          rw [ih _ (ip + 1) tbl b hbrest]
          exact heapGet_set_ne h a b _ (Ne.symm hba)
      | Literal v =>
        rw [show hpass2 h (a :: rest) ip tbl = hpass2 h rest (ip + 1) tbl
          from by simp [hpass2, hd]]
        exact ih h (ip + 1) tbl b hbrest
      | RegisterReference r =>
        rw [show hpass2 h (a :: rest) ip tbl = hpass2 h rest (ip + 1) tbl
          from by simp [hpass2, hd]]
        exact ih h (ip + 1) tbl b hbrest
      | MemoryReference m =>
        rw [show hpass2 h (a :: rest) ip tbl = hpass2 h rest (ip + 1) tbl
          from by simp [hpass2, hd]]
        exact ih h (ip + 1) tbl b hbrest

lemma hpass2_nolabel : ∀ (addrs : List Nat) (h : Heap) (ip : Nat)
    (tbl : List (String × Nat)),
    (∀ a ∈ addrs, ∀ n : String, destOf (heapGet h a) ≠ some (.Label n)) →
    hpass2 h addrs ip tbl = (h, .ok ()) := by
  intro addrs
  induction addrs with
  | nil => intro h ip tbl _; rfl
  | cons a rest ih =>
    intro h ip tbl hnl
    have hrest := ih h (ip + 1) tbl (fun x hx n => hnl x (by simp [hx]) n)
    cases hd : destOf (heapGet h a) with
    | none =>
      rw [show hpass2 h (a :: rest) ip tbl = hpass2 h rest (ip + 1) tbl
        from by simp [hpass2, hd]]
      exact hrest
    | some op =>
      cases op with
      | Label n => exact absurd hd (hnl a (by simp) n)
      | Literal v =>
        rw [show hpass2 h (a :: rest) ip tbl = hpass2 h rest (ip + 1) tbl
          from by simp [hpass2, hd]]
        exact hrest
      | RegisterReference r =>
        rw [show hpass2 h (a :: rest) ip tbl = hpass2 h rest (ip + 1) tbl
          from by simp [hpass2, hd]]
        exact hrest
      | MemoryReference m =>
        rw [show hpass2 h (a :: rest) ip tbl = hpass2 h rest (ip + 1) tbl
          from by simp [hpass2, hd]]
        exact hrest

end DT31Model

namespace DT31Model

/-- C9: `assemble` never mutates its input program. In the object-graph
model, every object at an input address is unchanged by `hassemble`
(whether it succeeds or fails), the output list holds only freshly
allocated copies (addresses at or past the original heap top), and for
every label-free program the output is content-equal to the input
instruction sequence. -/
theorem C9_assemble_purity (h : Heap) (program : List ProgItem)
    (hwf : heapWf h program) :
    (∀ b, b < h.length → heapGet (hassemble h program).1 b = heapGet h b) ∧
    (∀ addrs, (hassemble h program).2 = .ok addrs → ∀ a ∈ addrs, h.length ≤ a) ∧
    (labelFree h program →
      (hassemble h program).2 = .ok (List.range' h.length (refCount program)) ∧
      (List.range' h.length (refCount program)).map
        (heapGet (hassemble h program).1) = refContents h program) := by
  cases hp1 : hpass1 h program [] [] with
  | mk h1 res1 =>
  cases res1 with
  | error e =>
    have hass : hassemble h program = (h1, .error e) := by
      simp [hassemble, hp1]
    obtain ⟨ext, hext⟩ := hpass1_extend program h [] []
    rw [hp1] at hext
    refine ⟨?_, ?_, ?_⟩
    · intro b hb
      rw [hass]
      rw [show h1 = h ++ ext from hext]
      exact heapGet_append h ext b hb
    · intro addrs haddrs
      rw [hass] at haddrs
      exact absurd haddrs (by simp)
    · intro hlf
      obtain ⟨h2, addrs, tbl2, he⟩ := hpass1_ok_of_nolabels program h [] []
        (fun x hx n => hlf.1 x hx n)
      rw [hp1] at he
      simp at he
  | ok pr =>
    obtain ⟨addrs, tbl⟩ := pr
    obtain ⟨hh1, haddrs⟩ := hpass1_ok_inv program h [] [] h1 addrs tbl hwf hp1
    have haddrs2 : addrs = List.range' h.length (refCount program) := by
      simpa using haddrs
    have hge : ∀ a ∈ addrs, h.length ≤ a ∧ a < h.length + refCount program := by
      intro a ha
      rw [haddrs2] at ha
      exact List.mem_range'_1.mp ha
    have hkeep : ∀ b, b < h.length →
        heapGet (hpass2 h1 addrs 0 tbl).1 b = heapGet h b := by
      intro b hb
      rw [hpass2_keep addrs h1 0 tbl b
        (fun a ha => by have := (hge a ha).1; omega)]
      rw [hh1]
      exact heapGet_append _ _ b hb
    have hnl : labelFree h program → ∀ a ∈ addrs, ∀ n : String,
        destOf (heapGet h1 a) ≠ some (.Label n) := by
      intro hlf a ha n
      obtain ⟨hle, hlt⟩ := hge a ha
      obtain ⟨i, rfl⟩ : ∃ i, a = h.length + i := ⟨a - h.length, by omega⟩
      rw [hh1, heapGet_append_right]
      have hilen : i < (refContents h program).length := by
        rw [refContents_length]
        omega
      have hmem : heapGet (refContents h program) i ∈ refContents h program := by
        simp only [heapGet]
        rw [List.getD_eq_getElem?_getD, List.getElem?_eq_getElem hilen]
        exact List.getElem_mem _
      obtain ⟨b, hb, he⟩ := refContents_mem h program _ hmem
      rw [he]
      exact hlf.2 (.instrRef b) hb b rfl n
    cases hp2 : hpass2 h1 addrs 0 tbl with
    | mk h2 res2 =>
    cases res2 with
    | error e =>
      have hass : hassemble h program = (h2, .error e) := by
        simp [hassemble, hp1, hp2]
      refine ⟨?_, ?_, ?_⟩
      · intro b hb
        rw [hass]
        have := hkeep b hb
        rw [hp2] at this
        exact this
      · intro addrs2 heq
        rw [hass] at heq
        exact absurd heq (by simp)
      · intro hlf
        have hok := hpass2_nolabel addrs h1 0 tbl (hnl hlf)
        rw [hp2] at hok
        simp at hok
    | ok u =>
      have hass : hassemble h program = (h2, .ok addrs) := by
        simp [hassemble, hp1, hp2]
      have hok := hpass2_nolabel addrs h1 0 tbl
      refine ⟨?_, ?_, ?_⟩
      · intro b hb
        rw [hass]
        have := hkeep b hb
        rw [hp2] at this
        exact this
      · intro addrs2 heq
        rw [hass] at heq
        simp only [Except.ok.injEq] at heq
        subst heq
        intro a ha
        exact (hge a ha).1
      · intro hlf
        have h2eq := hok (hnl hlf)
        rw [hp2] at h2eq
        have hh2 : h2 = h1 := by
          simpa using congrArg Prod.fst h2eq
        constructor
        · rw [hass, haddrs2]
        · rw [hass, hh2, hh1]
          have hcnt : refCount program = (refContents h program).length :=
            (refContents_length h program).symm
          rw [hcnt]
          exact map_range'_heapGet (refContents h program) h

end DT31Model

namespace DT31Model

/-- Concrete two-object heap for the C9 witness. -/
def exHeap : Heap := [.NOOP, .CP (.Literal 1) (.RegisterReference "a")]

/-- Concrete label-free program over `exHeap` for the C9 witness. -/
def exProg : List ProgItem := [.instrRef 0, .instrRef 1]

/-- Witness for `C9_assemble_purity` on `exHeap`/`exProg`. -/
theorem C9_witness :
    (∀ b, b < exHeap.length →
      heapGet (hassemble exHeap exProg).1 b = heapGet exHeap b) ∧
    (hassemble exHeap exProg).2 =
      .ok (List.range' exHeap.length (refCount exProg)) ∧
    (List.range' exHeap.length (refCount exProg)).map
      (heapGet (hassemble exHeap exProg).1) = refContents exHeap exProg := by
  have hwf : heapWf exHeap exProg := by
    intro item hi a ha
    simp only [exProg, List.mem_cons, List.not_mem_nil, or_false] at hi
    rcases hi with rfl | rfl
    · injection ha with ha
      subst ha
      decide
    · injection ha with ha
      subst ha
      decide
  have hlf : labelFree exHeap exProg := by
    constructor
    · intro item hi n
      simp only [exProg, List.mem_cons, List.not_mem_nil, or_false] at hi
      rcases hi with rfl | rfl <;> simp
    · intro item hi a ha n
      simp only [exProg, List.mem_cons, List.not_mem_nil, or_false] at hi
      rcases hi with rfl | rfl
      · injection ha with ha
        subst ha
        simp [exHeap, heapGet, destOf]
      · injection ha with ha
        subst ha
        simp [exHeap, heapGet, destOf]
  have h := C9_assemble_purity exHeap exProg hwf
  have h3 := h.2.2 hlf
  exact ⟨h.1, h3.1, h3.2⟩

end DT31Model
